import Mathlib

/-!
Verification of the SDL2-canvas repository against its specification.

The development shallowly embeds:
* `data_process.py` (`rolling_mean`, `detect_peaks`) — tables become lists of
  rows carrying their pandas index label, numbers become `ℚ`;
* the task-orchestration engine of `api.py` (task records, the `FUTURES`
  job-handle table, the per-type execution bodies, the HTTP operations
  `create/read/delete`);
* the client-side workflow executor
  (`src/core/workflow_executor.py`, `src/operations/unit_operations.py`).

External collaborators (pandas CSV parsing, the scipy peak search, the HTTP
transport, the simulated hardware delays and asyncio locks) are modelled from
their documented behaviour where a claim depends on them, and abstracted into
oracle parameters where it does not.
-/

namespace SDL2

/-! ## `data_process.rolling_mean`

A pandas `DataFrame` with an `x` column and a `y` column is a list of rows;
`idx` is the pandas index label of the row, `y` is `none` where the value is
missing (NaN). -/

structure RMRow where
  idx : ℕ
  x : ℚ
  y : Option ℚ
deriving DecidableEq, Repr

/-- The ordering used by `df.sort_values(by=x_col)`: compare `x` values. -/
def rleRM (a b : RMRow) : Prop := a.x ≤ b.x

instance : DecidableRel rleRM := fun a b => inferInstanceAs (Decidable (a.x ≤ b.x))

instance : IsTotal RMRow rleRM := ⟨fun a b => le_total a.x b.x⟩

instance : IsTrans RMRow rleRM := ⟨fun _ _ _ => le_trans⟩

/-- `df.sort_values(by=x_col)`: stable ascending sort on the `x` column. -/
def sortByX (df : List RMRow) : List RMRow := List.insertionSort rleRM df

/-- The trailing window of up to `w` elements ending at position `i`
(inclusive), as used by `Series.rolling(window=w)`. -/
def windowVals (ys : List (Option ℚ)) (w i : ℕ) : List (Option ℚ) :=
  (ys.take (i + 1)).drop (i + 1 - w)

/-- `Series.rolling(window=w, min_periods=m).mean()` at position `i`: the mean
of the non-missing values of the trailing window when there are at least
`max m 1` of them, missing otherwise. -/
def rollingAt (ys : List (Option ℚ)) (w m i : ℕ) : Option ℚ :=
  let vals := (windowVals ys w i).filterMap id
  if max m 1 ≤ vals.length then some (vals.sum / vals.length) else none

/-- A pandas `Series`: values keyed by index label, in positional order. -/
abbrev Series := List (ℕ × Option ℚ)

/-- The rolling-mean series computed over `rows` in their given order, keyed by
each row's index label (the index survives `sort_values`). -/
def rollingSeries (rows : List RMRow) (w m : ℕ) : Series :=
  rows.enum.map fun p => (p.2.idx, rollingAt (rows.map RMRow.y) w m p.1)

/-- Label lookup in a series (first occurrence). -/
def seriesLookup (s : Series) (k : ℕ) : Option (Option ℚ) :=
  (s.find? fun p => p.1 = k).map Prod.snd

/-- The value a series holds at label `k` (missing when the label is absent,
as `Series.reindex` would produce). -/
def valueAt (s : Series) (k : ℕ) : Option ℚ :=
  (seriesLookup s k).getD none

/-- `Series.reindex(labels)`: one entry per requested label, in that order. -/
def reindexSeries (s : Series) (ks : List ℕ) : Series :=
  ks.map fun k => (k, valueAt s k)

/-- `data_process.rolling_mean(df, x_col, y_col, window_size, min_periods)`:
sort by `x`, take the trailing windowed mean of `y` in sorted order, and if the
input was not already equal to its sorted form, reindex the result back to the
original index order. -/
def rolling_mean (df : List RMRow) (window_size : ℕ) (min_periods : Option ℕ) :
    Series :=
  let minp := min_periods.getD window_size
  let dfSorted := sortByX df
  let result := rollingSeries dfSorted window_size minp
  if df = dfSorted then result else reindexSeries result (df.map RMRow.idx)

example :
    rolling_mean [⟨0, 0, some 1⟩, ⟨1, 1, some 3⟩] 2 (some 1) =
      [(0, some 1), (1, some 2)] := by
  norm_num [rolling_mean, sortByX, List.insertionSort, List.orderedInsert,
    rleRM, rollingSeries, rollingAt, windowVals, List.enum, List.enumFrom,
    List.filterMap_cons, List.sum_cons]

example :
    rolling_mean [⟨0, 1, some 3⟩, ⟨1, 0, some 1⟩] 2 (some 1) =
      [(0, some 2), (1, some 1)] := by
  norm_num [rolling_mean, sortByX, List.insertionSort, List.orderedInsert,
    rleRM, rollingSeries, rollingAt, windowVals, List.enum, List.enumFrom,
    List.filterMap_cons, List.sum_cons,
    reindexSeries, valueAt, seriesLookup, List.find?]

theorem rollingSeries_get? (rows : List RMRow) (w m i : ℕ) :
    (rollingSeries rows w m).get? i =
      (rows.get? i).map fun r => (r.idx, rollingAt (rows.map RMRow.y) w m i) := by
  simp only [rollingSeries, List.get?_map, List.get?_enum]
  cases rows.get? i <;> simp

theorem rollingSeries_length (rows : List RMRow) (w m : ℕ) :
    (rollingSeries rows w m).length = rows.length := by
  simp [rollingSeries, List.enum_length]

theorem enumFrom_map_keys (g : ℕ × RMRow → ℕ × Option ℚ)
    (hg : ∀ p, (g p).1 = p.2.idx) :
    ∀ (rows : List RMRow) (n : ℕ),
      ((rows.enumFrom n).map g).map Prod.fst = rows.map RMRow.idx := by
  intro rows
  induction rows with
  | nil => intro n; rfl
  | cons a t ih => intro n; simp [List.enumFrom, hg, ih]

theorem rollingSeries_keys (rows : List RMRow) (w m : ℕ) :
    (rollingSeries rows w m).map Prod.fst = rows.map RMRow.idx := by
  have h := enumFrom_map_keys
    (fun p => (p.2.idx, rollingAt (rows.map RMRow.y) w m p.1)) (fun _ => rfl) rows 0
  simpa [rollingSeries, List.enum] using h

theorem seriesLookup_get? :
    ∀ (s : Series) (i k : ℕ) (v : Option ℚ),
      (s.map Prod.fst).Nodup → s.get? i = some (k, v) → seriesLookup s k = some v
  | [], i, _, _, _, h => by simp at h
  | p :: s, 0, k, v, _, h => by
      simp only [List.get?] at h
      cases h
      simp [seriesLookup, List.find?]
  | p :: s, i + 1, k, v, hnd, h => by
      simp only [List.get?] at h
      rw [List.map_cons] at hnd
      obtain ⟨hh, ht⟩ := List.nodup_cons.mp hnd
      have hmem : (k, v) ∈ s := List.get?_mem h
      have hk : k ∈ s.map Prod.fst := List.mem_map_of_mem Prod.fst hmem
      have hne : ¬(p.1 = k) := fun e => hh (e ▸ hk)
      have ih := seriesLookup_get? s i k v ht h
      simpa [seriesLookup, List.find?, hne] using ih

/-- `C4`: `rolling_mean` returns one value per input row; output entry `i`
carries the `i`-th input row's index label and the rolling value that was
computed for that row in sorted order (so an unsorted input is realigned back
to original row order); and on an input already sorted by `x` the result is
exactly the direct trailing windowed mean, in that sorted order. -/
theorem rolling_mean_aligned (df : List RMRow) (w : ℕ) (m : Option ℕ)
    (hnd : (df.map RMRow.idx).Nodup) :
    (rolling_mean df w m).length = df.length ∧
    (∀ i r, df.get? i = some r →
      (rolling_mean df w m).get? i =
        some (r.idx, valueAt (rollingSeries (sortByX df) w (m.getD w)) r.idx)) ∧
    (df.Sorted rleRM → rolling_mean df w m = rollingSeries df w (m.getD w)) := by
  have hperm : List.Perm (sortByX df) df := List.perm_insertionSort rleRM df
  have hkeysperm : List.Perm ((sortByX df).map RMRow.idx) (df.map RMRow.idx) :=
    hperm.map RMRow.idx
  have hkeysnd : ((rollingSeries (sortByX df) w (m.getD w)).map Prod.fst).Nodup := by
    rw [rollingSeries_keys]
    exact (List.Perm.nodup_iff hkeysperm).mpr hnd
  by_cases heq : df = sortByX df
  · have hrm : rolling_mean df w m = rollingSeries (sortByX df) w (m.getD w) := by
      simp only [rolling_mean]
      rw [if_pos heq]
    refine ⟨?_, ?_, ?_⟩
    · rw [hrm, rollingSeries_length, sortByX, List.length_insertionSort]
    · intro i r hget
      rw [hrm]
      have hget' : (sortByX df).get? i = some r := by rw [← heq]; exact hget
      have h1 := rollingSeries_get? (sortByX df) w (m.getD w) i
      rw [hget'] at h1
      simp only [Option.map_some'] at h1
      have h2 := seriesLookup_get? _ i r.idx _ hkeysnd h1
      rw [h1]
      simp [valueAt, h2]
    · intro _
      rw [hrm, ← heq]
  · have hrm : rolling_mean df w m =
        reindexSeries (rollingSeries (sortByX df) w (m.getD w)) (df.map RMRow.idx) := by
      simp only [rolling_mean]
      rw [if_neg heq]
    refine ⟨?_, ?_, ?_⟩
    · rw [hrm]; simp [reindexSeries]
    · intro i r hget
      rw [hrm]
      simp only [reindexSeries, List.get?_map, List.get?_map, hget]
      simp
    · intro hsorted
      exact absurd (hsorted.insertionSort_eq).symm heq

/-- Witness for `rolling_mean_aligned` at a concrete unsorted two-row table. -/
theorem rolling_mean_aligned_witness :
    (([⟨0, 1, some 3⟩, ⟨1, 0, some 1⟩] : List RMRow).map RMRow.idx).Nodup ∧
      (rolling_mean [⟨0, 1, some 3⟩, ⟨1, 0, some 1⟩] 2 (some 1)).length = 2 := by
  refine ⟨by decide, ?_⟩
  exact (rolling_mean_aligned [⟨0, 1, some 3⟩, ⟨1, 0, some 1⟩] 2 (some 1)
    (by decide)).1

/-! ## `data_process.detect_peaks`

Rows of the table passed to `detect_peaks`; `cycle` is the scan-cycle column
used by the peak-detection task body in `api.py` (the pure function ignores
it). -/

structure PKRow where
  idx : ℕ
  x : ℚ
  y : ℚ
  cycle : ℚ
deriving DecidableEq, Repr

def rlePK (a b : PKRow) : Prop := a.x ≤ b.x

instance : DecidableRel rlePK := fun a b => inferInstanceAs (Decidable (a.x ≤ b.x))

instance : IsTotal PKRow rlePK := ⟨fun a b => le_total a.x b.x⟩

instance : IsTrans PKRow rlePK := ⟨fun _ _ _ => le_trans⟩

/-- `df.sort_values(by=x_col)` for peak-detection tables. -/
def sortByXP (df : List PKRow) : List PKRow := List.insertionSort rlePK df

/-- `np.gradient` at one position: one-sided difference at the two ends,
central difference in the interior. (`np.gradient` itself raises for arrays of
fewer than two samples; `detect_peaks` is modelled as erroring there.) -/
def gradAt (xs : List ℚ) (i : ℕ) : ℚ :=
  if i = 0 then xs.getD 1 0 - xs.getD 0 0
  else if i = xs.length - 1 then xs.getD (xs.length - 1) 0 - xs.getD (xs.length - 2) 0
  else (xs.getD (i + 1) 0 - xs.getD (i - 1) 0) / 2

/-- `np.gradient(x_values)` for arrays of at least two samples. -/
def npGradient (xs : List ℚ) : List ℚ :=
  (List.range xs.length).map (gradAt xs)

/-- `np.convolve(g, ones(w)/w, mode="valid")`: mean of each length-`w`
contiguous window. -/
def movingAvgValid (g : List ℚ) (w : ℕ) : List ℚ :=
  (List.range (g.length + 1 - w)).map fun j => ((g.drop j).take w).sum / w

/-- `np.pad(s, (l, r), "edge")`: replicate first and last samples. -/
def edgePad (s : List ℚ) (l r : ℕ) : List ℚ :=
  List.replicate l (s.headD 0) ++ s ++ List.replicate r (s.getLastD 0)

/-- The smoothed x-gradient of `detect_peaks`: moving average of window
`min 5 (n / 10 + 1)` when that window exceeds 1, edge-padded back to full
length; the raw gradient otherwise. -/
def smoothedGradient (xs : List ℚ) : List ℚ :=
  let g := npGradient xs
  let w := min 5 (g.length / 10 + 1)
  if 1 < w then
    let s := movingAvgValid g w
    let pad := g.length - s.length
    edgePad s (pad / 2) (pad - pad / 2)
  else g

/-- `forward_mask = smoothed_gradient >= noise_tolerance`. -/
def forwardMask (xs : List ℚ) (tol : ℚ) : List Bool :=
  (smoothedGradient xs).map fun v => decide (tol ≤ v)

/-- `reverse_mask = smoothed_gradient < -noise_tolerance` (note: strict). -/
def reverseMask (xs : List ℚ) (tol : ℚ) : List Bool :=
  (smoothedGradient xs).map fun v => decide (v < -tol)

/-- Boolean-mask row selection, `df_sorted[mask]`. -/
def maskFilter {α : Type} (rows : List α) (mask : List Bool) : List α :=
  (rows.zip mask).filterMap fun p => if p.2 then some p.1 else none

/-- The forward-branch rows `df_forward = df_sorted[forward_mask]`. -/
def forwardRows (df : List PKRow) (tol : ℚ) : List PKRow :=
  maskFilter (sortByXP df) (forwardMask ((sortByXP df).map PKRow.x) tol)

/-- The reverse-branch rows `df_reverse = df_sorted[reverse_mask]`. -/
def reverseRows (df : List PKRow) (tol : ℚ) : List PKRow :=
  maskFilter (sortByXP df) (reverseMask ((sortByXP df).map PKRow.x) tol)

/-! ### A model of `scipy.signal.find_peaks`

`find_peaks` is an external collaborator; it is modelled from its documented
semantics: strict local maxima (plateaus contribute their midpoint, the two
edge samples are never peaks), then the optional minimum-height, threshold,
distance, prominence and width filters, applied conjunctively in that order. -/

/-- Scan forward from `j` over samples equal to `v`, stopping at `n - 1`
(the inner plateau scan of the local-maxima search); `fuel` bounds the
recursion. -/
def plateauAhead (ys : List ℚ) (v : ℚ) (n : ℕ) : ℕ → ℕ → ℕ
  | j, 0 => j
  | j, fuel + 1 =>
      if j < n - 1 ∧ ys.getD j 0 = v then plateauAhead ys v n (j + 1) fuel else j

/-- The local-maxima scan: at `i` with `ys[i-1] < ys[i]`, find the plateau end
`ia`; if the sample after the plateau is strictly smaller, record the plateau
midpoint and continue past it. -/
def lmLoop (ys : List ℚ) : ℕ → ℕ → List ℕ
  | _, 0 => []
  | i, fuel + 1 =>
      if i < ys.length - 1 then
        if ys.getD (i - 1) 0 < ys.getD i 0 then
          let ia := plateauAhead ys (ys.getD i 0) ys.length (i + 1) ys.length
          if ys.getD ia 0 < ys.getD i 0 then
            (i + (ia - 1)) / 2 :: lmLoop ys (ia + 1) fuel
          else lmLoop ys (i + 1) fuel
        else lmLoop ys (i + 1) fuel
      else []

/-- All strict local maxima of `ys` (plateau midpoints; edges excluded). -/
def localMaxima (ys : List ℚ) : List ℕ :=
  lmLoop ys 1 ys.length

/-- Minimum vertical distance of a peak to its two neighbouring samples, for
the `threshold` filter. -/
def thresholdAt (ys : List ℚ) (p : ℕ) : ℚ :=
  min (ys.getD p 0 - ys.getD (p - 1) 0) (ys.getD p 0 - ys.getD (p + 1) 0)

/-- |a - b| on ℕ indices. -/
def natDist (a b : ℕ) : ℕ := max a b - min a b

/-- One pass of the distance-suppression loop: process peak positions in
priority order (highest first); a still-kept peak removes every other peak
strictly closer than `d` samples. -/
def sbdProcess (peaks : List ℕ) (d : ℕ) : List ℕ → List Bool → List Bool
  | [], keep => keep
  | j :: rest, keep =>
      if keep.getD j false then
        sbdProcess peaks d rest
          (keep.mapIdx fun k b =>
            if k ≠ j ∧ natDist (peaks.getD k 0) (peaks.getD j 0) < d then false else b)
      else sbdProcess peaks d rest keep

/-- `scipy`'s `_select_by_peak_distance`: keep higher peaks, removing any peak
closer than `d` samples to a kept higher one. -/
def selectByPeakDistance (peaks : List ℕ) (ys : List ℚ) (d : ℕ) : List ℕ :=
  let yv := fun k => ys.getD (peaks.getD k 0) 0
  let prio :=
    (List.insertionSort (fun a b => yv a ≤ yv b) (List.range peaks.length)).reverse
  let keep := sbdProcess peaks d prio (List.replicate peaks.length true)
  (peaks.zip keep).filterMap fun p => if p.2 then some p.1 else none

/-- Minimum over the maximal run of samples `≤ yp` on one side of a peak
(the prominence base scan). -/
def promSideMin (seg : List ℚ) (yp : ℚ) : ℚ :=
  (seg.takeWhile fun v => decide (v ≤ yp)).foldl min yp

/-- `scipy`'s peak prominence (no `wlen` restriction): height of the peak
above the higher of its two bases. -/
def promAt (ys : List ℚ) (p : ℕ) : ℚ :=
  let yp := ys.getD p 0
  let lmin := promSideMin ((ys.take (p + 1)).reverse) yp
  let rmin := promSideMin (ys.drop p) yp
  yp - max lmin rmin

/-- Base index on one side: index (closest to the peak) of the minimum of the
scanned run. `pairs` lists `(index, sample)` moving away from the peak. -/
def promSideBase (pairs : List (ℕ × ℚ)) (yp : ℚ) (p : ℕ) : ℕ :=
  ((pairs.takeWhile fun pr => decide (pr.2 ≤ yp)).foldl
    (fun acc pr => if pr.2 < acc.1 then (pr.2, pr.1) else acc) (yp, p)).2

/-- `(index, sample)` pairs moving left from the peak. -/
def leftPairs (ys : List ℚ) (p : ℕ) : List (ℕ × ℚ) :=
  (((ys.take (p + 1)).enum).reverse).map fun q => (q.1, q.2)

/-- `(index, sample)` pairs moving right from the peak. -/
def rightPairs (ys : List ℚ) (p : ℕ) : List (ℕ × ℚ) :=
  ((ys.enum).drop p).map fun q => (q.1, q.2)

/-- Scan down from `i` while the sample stays above `hval` and the base is not
reached (left intersection search of the width computation). -/
def wScanDown (ys : List ℚ) (hval : ℚ) (imin : ℕ) : ℕ → ℕ
  | 0 => 0
  | i + 1 =>
      if imin < i + 1 ∧ hval < ys.getD (i + 1) 0 then wScanDown ys hval imin i
      else i + 1

/-- Scan up from `i` while the sample stays above `hval` and the base is not
reached; `fuel` bounds the recursion. -/
def wScanUp (ys : List ℚ) (hval : ℚ) (imax : ℕ) : ℕ → ℕ → ℕ
  | i, 0 => i
  | i, fuel + 1 =>
      if i < imax ∧ hval < ys.getD i 0 then wScanUp ys hval imax (i + 1) fuel else i

/-- `scipy`'s peak width at relative height 0.5: distance between the two
linearly interpolated crossings of `y_peak - prominence / 2`. -/
def widthAt (ys : List ℚ) (p : ℕ) : ℚ :=
  let yp := ys.getD p 0
  let lbase := promSideBase (leftPairs ys p) yp p
  let rbase := promSideBase (rightPairs ys p) yp p
  let hval := yp - promAt ys p / 2
  let li := wScanDown ys hval lbase p
  let ri := wScanUp ys hval rbase p ys.length
  let leftIp : ℚ :=
    if ys.getD li 0 < hval then
      li + (hval - ys.getD li 0) / (ys.getD (li + 1) 0 - ys.getD li 0)
    else (li : ℚ)
  let rightIp : ℚ :=
    if ys.getD ri 0 < hval then
      ri - (hval - ys.getD ri 0) / (ys.getD (ri - 1) 0 - ys.getD ri 0)
    else (ri : ℚ)
  rightIp - leftIp

/-- The modelled `scipy.signal.find_peaks`: local maxima filtered by the
optional height, threshold, distance, prominence and width conditions, in the
order scipy applies them. -/
def findPeaks (ys : List ℚ) (height : Option ℚ) (prominence : Option ℚ)
    (distance : Option ℕ) (width : Option ℕ) (threshold : Option ℚ) : List ℕ :=
  let ps0 := localMaxima ys
  let ps1 := match height with
    | none => ps0
    | some h => ps0.filter fun p => decide (h ≤ ys.getD p 0)
  let ps2 := match threshold with
    | none => ps1
    | some t => ps1.filter fun p => decide (t ≤ thresholdAt ys p)
  let ps3 := match distance with
    | none => ps2
    | some d => selectByPeakDistance ps2 ys d
  let ps4 := match prominence with
    | none => ps3
    | some pm => ps3.filter fun p => decide (pm ≤ promAt ys p)
  match width with
  | none => ps4
  | some wm => ps4.filter fun p => decide ((wm : ℚ) ≤ widthAt ys p)

/-- A row of the `detect_peaks` result: the source row, the `scan_direction`
label, and the property columns attached when available. -/
structure Peak where
  row : PKRow
  scanDirection : String
  peakHeight : Option ℚ
  prominence : Option ℚ
  width : Option ℚ
deriving DecidableEq, Repr

/-- `find_scan_peaks(scan_df, direction)`: the peak search restricted to one
scan class, with the property columns the source attaches (`peak_height` only
when `height` was given, `prominence` always — `detect_peaks` always passes a
prominence — and `width` only when `width` was given). -/
def findScanPeaks (scanDf : List PKRow) (direction : String) (height : Option ℚ)
    (prominence : ℚ) (distance : Option ℕ) (width : Option ℕ)
    (threshold : Option ℚ) : List Peak :=
  if scanDf = [] then []
  else
    let ys := scanDf.map PKRow.y
    let pidx := findPeaks ys height (some prominence) distance width threshold
    pidx.filterMap fun i =>
      (scanDf.get? i).map fun r =>
        { row := r, scanDirection := direction,
          peakHeight := height.map fun _ => ys.getD i 0,
          prominence := some (promAt ys i),
          width := width.map fun _ => widthAt ys i }

/-- The fallback branch of `detect_peaks`: one unified search over the full
sorted `y` column, every result labelled `"unknown"` (the search's property
dictionary is discarded there). -/
def unifiedSearch (dfs : List PKRow) (height : Option ℚ) (prominence : ℚ)
    (distance : Option ℕ) (width : Option ℕ) (threshold : Option ℚ) : List Peak :=
  (findPeaks (dfs.map PKRow.y) height (some prominence) distance width
      threshold).filterMap fun i =>
    (dfs.get? i).map fun r =>
      { row := r, scanDirection := "unknown", peakHeight := none,
        prominence := none, width := none }

/-- Final `sort_values(by=x_col)` + `reset_index` over the concatenated
forward and reverse peaks. -/
def sortPeaksByX (ps : List Peak) : List Peak :=
  List.insertionSort (fun a b => a.row.x ≤ b.row.x) ps

/-- `data_process.detect_peaks`. Returns `.error` exactly where the source
raises (`np.gradient` on fewer than two samples); otherwise: classify rows by
the smoothed x-gradient, fall back to a unified `"unknown"`-labelled search
when either class is empty, and otherwise search the two classes
independently and return the concatenation re-sorted by `x`. -/
def detect_peaks (df : List PKRow) (height : Option ℚ) (prominence : ℚ)
    (distance : Option ℕ) (width : Option ℕ) (threshold : Option ℚ)
    (noise_tolerance : ℚ) : Except String (List Peak) :=
  let dfs := sortByXP df
  if dfs.length < 2 then
    .error "np.gradient: at least 2 elements are required"
  else
    let xs := dfs.map PKRow.x
    let fmask := forwardMask xs noise_tolerance
    let rmask := reverseMask xs noise_tolerance
    if fmask.all (· = false) ∨ rmask.all (· = false) then
      .ok (unifiedSearch dfs height prominence distance width threshold)
    else
      let forwardPeaks :=
        findScanPeaks (maskFilter dfs fmask) "forward" height prominence distance
          width threshold
      let reversePeaks :=
        findScanPeaks (maskFilter dfs rmask) "reverse" height prominence distance
          width threshold
      let allPeaks := forwardPeaks ++ reversePeaks
      if allPeaks = [] then .ok [] else .ok (sortPeaksByX allPeaks)

/-! ### Classification facts (C5)

After `sort_values(by=x_col)` the `x` column is ascending, so every entry of
its (smoothed) gradient is nonnegative; for a positive `noise_tolerance` the
reverse class is therefore always empty, and the code's strict
`< -noise_tolerance` test agrees with the spec's `≤ -noise_tolerance` on every
reachable gradient value. -/

theorem getD_sorted_le (xs : List ℚ) (hs : xs.Sorted (· ≤ ·)) (i j : ℕ)
    (hij : i ≤ j) (hj : j < xs.length) : xs.getD i 0 ≤ xs.getD j 0 := by
  rcases eq_or_lt_of_le hij with rfl | hlt
  · exact le_refl _
  · have hi : i < xs.length := lt_trans hlt hj
    rw [List.getD_eq_get xs 0 hi, List.getD_eq_get xs 0 hj]
    exact List.pairwise_iff_get.mp hs ⟨i, hi⟩ ⟨j, hj⟩ hlt

theorem gradAt_nonneg (xs : List ℚ) (hs : xs.Sorted (· ≤ ·)) (h2 : 2 ≤ xs.length)
    (i : ℕ) (hi : i < xs.length) : 0 ≤ gradAt xs i := by
  unfold gradAt
  split
  · have := getD_sorted_le xs hs 0 1 (by omega) (by omega)
    linarith
  · split
    · have := getD_sorted_le xs hs (xs.length - 2) (xs.length - 1) (by omega) (by omega)
      linarith
    · rename_i h0 hl
      have hle := getD_sorted_le xs hs (i - 1) (i + 1) (by omega) (by omega)
      have : (0 : ℚ) ≤ xs.getD (i + 1) 0 - xs.getD (i - 1) 0 := by linarith
      linarith

theorem npGradient_nonneg (xs : List ℚ) (hs : xs.Sorted (· ≤ ·))
    (h2 : 2 ≤ xs.length) : ∀ v ∈ npGradient xs, 0 ≤ v := by
  intro v hv
  simp only [npGradient, List.mem_map, List.mem_range] at hv
  obtain ⟨i, hi, rfl⟩ := hv
  exact gradAt_nonneg xs hs h2 i hi

theorem movingAvgValid_nonneg (g : List ℚ) (w : ℕ) (hg : ∀ v ∈ g, 0 ≤ v) :
    ∀ v ∈ movingAvgValid g w, 0 ≤ v := by
  intro v hv
  simp only [movingAvgValid, List.mem_map, List.mem_range] at hv
  obtain ⟨j, _, rfl⟩ := hv
  have hsum : 0 ≤ ((g.drop j).take w).sum :=
    List.sum_nonneg fun x hx => hg x (List.drop_subset j g (List.take_subset w _ hx))
  exact div_nonneg hsum (by positivity)

theorem edgePad_nonneg (s : List ℚ) (l r : ℕ) (hs : ∀ v ∈ s, 0 ≤ v) :
    ∀ v ∈ edgePad s l r, 0 ≤ v := by
  intro v hv
  unfold edgePad at hv
  simp only [List.mem_append, List.mem_replicate] at hv
  rcases hv with (⟨_, rfl⟩ | hv) | ⟨_, rfl⟩
  · cases s with
    | nil => norm_num [List.headD]
    | cons a t => exact hs _ (by simp [List.headD])
  · exact hs _ hv
  · cases s with
    | nil => norm_num [List.getLastD]
    | cons a t =>
        have hne : (a :: t) ≠ [] := by simp
        have heq : (a :: t).getLastD 0 = (a :: t).getLast hne := by
          rw [List.getLastD_eq_getLast?, List.getLast?_eq_getLast_of_ne_nil hne]
          rfl
        rw [heq]
        exact hs _ (List.getLast_mem hne)

theorem smoothedGradient_nonneg (xs : List ℚ) (hs : xs.Sorted (· ≤ ·))
    (h2 : 2 ≤ xs.length) : ∀ v ∈ smoothedGradient xs, 0 ≤ v := by
  intro v hv
  have hg := npGradient_nonneg xs hs h2
  simp only [smoothedGradient] at hv
  split at hv
  · exact edgePad_nonneg _ _ _ (movingAvgValid_nonneg _ _ hg) v hv
  · exact hg v hv

theorem sortByXP_x_sorted (df : List PKRow) :
    ((sortByXP df).map PKRow.x).Sorted (· ≤ ·) := by
  have h := List.sorted_insertionSort rlePK df
  exact List.Pairwise.map PKRow.x (fun _ _ hab => hab) h

theorem maskFilter_map_pred {α : Type} (rows : List α) (vals : List ℚ)
    (f : ℚ → Bool) :
    maskFilter rows (vals.map f) =
      (rows.zip vals).filterMap fun p => if f p.2 then some p.1 else none := by
  unfold maskFilter
  rw [List.zip_map_right, List.filterMap_map]
  rfl

theorem filterMap_congr_mem {α β : Type} :
    ∀ (l : List α) (f g : α → Option β), (∀ a ∈ l, f a = g a) →
      l.filterMap f = l.filterMap g
  | [], _, _, _ => rfl
  | a :: l, f, g, h => by
      have hfa := h a (List.mem_cons_self a l)
      have ih := filterMap_congr_mem l f g fun b hb => h b (List.mem_cons_of_mem a hb)
      simp only [List.filterMap_cons, hfa, ih]

/-- `C5`: classification of rows of the sorted table. A sorted row enters the
forward branch exactly when its smoothed x-gradient is `≥ +noise_tolerance`
and the reverse branch exactly when it is `≤ -noise_tolerance`; rows strictly
between the bounds enter neither branch (the filters below select nothing for
them). The code tests `< -noise_tolerance`, but the sorted `x` column has a
nonnegative smoothed gradient, so for positive tolerance the two tests select
the same (empty) set of rows. -/
theorem detect_peaks_classification (df : List PKRow) (tol : ℚ) (htol : 0 < tol)
    (h2 : 2 ≤ df.length) :
    forwardRows df tol =
      ((sortByXP df).zip (smoothedGradient ((sortByXP df).map PKRow.x))).filterMap
        (fun p => if tol ≤ p.2 then some p.1 else none) ∧
    reverseRows df tol =
      ((sortByXP df).zip (smoothedGradient ((sortByXP df).map PKRow.x))).filterMap
        (fun p => if p.2 ≤ -tol then some p.1 else none) := by
  constructor
  · rw [forwardRows, forwardMask, maskFilter_map_pred]
    refine filterMap_congr_mem _ _ _ fun p _ => ?_
    by_cases h : tol ≤ p.2 <;> simp [h]
  · rw [reverseRows, reverseMask, maskFilter_map_pred]
    refine filterMap_congr_mem _ _ _ fun p hp => ?_
    have hlen : 2 ≤ ((sortByXP df).map PKRow.x).length := by
      rw [List.length_map, sortByXP, List.length_insertionSort]
      exact h2
    have hnn : 0 ≤ p.2 := by
      refine smoothedGradient_nonneg _ (sortByXP_x_sorted df) hlen _ ?_
      exact (List.mem_zip hp).2
    have h1 : ¬p.2 < -tol := by linarith
    have hle : ¬p.2 ≤ -tol := by linarith
    simp [h1, hle]

/-- Witness for `detect_peaks_classification` at a concrete table. -/
theorem detect_peaks_classification_witness :
    ((0 : ℚ) < 1 / 1000000 ∧ 2 ≤ ([⟨0, 0, 0, 0⟩, ⟨1, 1, 1, 0⟩] : List PKRow).length) ∧
      reverseRows [⟨0, 0, 0, 0⟩, ⟨1, 1, 1, 0⟩] (1 / 1000000) =
        (((sortByXP [⟨0, 0, 0, 0⟩, ⟨1, 1, 1, 0⟩])).zip
            (smoothedGradient
              ((sortByXP [⟨0, 0, 0, 0⟩, ⟨1, 1, 1, 0⟩]).map PKRow.x))).filterMap
          (fun p => if p.2 ≤ -(1 / 1000000) then some p.1 else none) := by
  refine ⟨⟨by norm_num, by decide⟩, ?_⟩
  exact (detect_peaks_classification [⟨0, 0, 0, 0⟩, ⟨1, 1, 1, 0⟩] (1 / 1000000)
    (by norm_num) (by decide)).2

/-! ### The fallback and zero-row behaviour (C6) -/

theorem npGradient_length (xs : List ℚ) : (npGradient xs).length = xs.length := by
  simp [npGradient]

theorem movingAvgValid_length (g : List ℚ) (w : ℕ) :
    (movingAvgValid g w).length = g.length + 1 - w := by
  simp [movingAvgValid]

theorem edgePad_length (s : List ℚ) (l r : ℕ) :
    (edgePad s l r).length = l + s.length + r := by
  simp [edgePad]; omega

theorem smoothedGradient_length (xs : List ℚ) :
    (smoothedGradient xs).length = xs.length := by
  simp only [smoothedGradient]
  split
  · rename_i hw
    rw [edgePad_length, movingAvgValid_length, npGradient_length]
    rw [npGradient_length] at hw
    have h5 : 5 ⊓ (xs.length / 10 + 1) ≤ xs.length / 10 + 1 := min_le_right _ _
    have h10 : xs.length / 10 + 1 ≤ xs.length + 1 := by omega
    set w := 5 ⊓ (xs.length / 10 + 1) with hwdef
    omega
  · exact npGradient_length xs

theorem maskFilter_eq_nil_iff {α : Type} :
    ∀ (rows : List α) (mask : List Bool), rows.length = mask.length →
      (maskFilter rows mask = [] ↔ mask.all (· = false) = true)
  | [], [], _ => by simp [maskFilter]
  | [], _ :: _, h => by simp at h
  | _ :: _, [], h => by simp at h
  | a :: rows, b :: mask, h => by
      have ih := maskFilter_eq_nil_iff rows mask (by simpa using h)
      cases b <;> simp [maskFilter, List.zip_cons_cons, List.filterMap_cons] at ih ⊢
      · exact ih

theorem unifiedSearch_direction (dfs : List PKRow) (height : Option ℚ)
    (prominence : ℚ) (distance : Option ℕ) (width : Option ℕ)
    (threshold : Option ℚ) :
    ∀ p ∈ unifiedSearch dfs height prominence distance width threshold,
      p.scanDirection = "unknown" := by
  intro p hp
  simp only [unifiedSearch, List.mem_filterMap] at hp
  obtain ⟨i, _, hi⟩ := hp
  rcases h : dfs.get? i with _ | r
  · rw [h] at hi; simp at hi
  · rw [h] at hi
    simp only [Option.map_some'] at hi
    cases hi
    rfl

/-- `C6` (amended to tables of at least two rows): `detect_peaks` then returns
a value rather than raising; when the forward or the reverse class is empty the
result is the single unified peak search over the full sorted `y` column with
every returned peak labelled `"unknown"`; and when no peaks are found in any
branch the result has zero rows. On fewer than two rows the source instead
raises from `np.gradient` (see `detect_peaks_single_row_raises`). -/
theorem detect_peaks_fallback (df : List PKRow) (height : Option ℚ)
    (prominence : ℚ) (distance : Option ℕ) (width : Option ℕ)
    (threshold : Option ℚ) (tol : ℚ) (h2 : 2 ≤ df.length) :
    ∃ res, detect_peaks df height prominence distance width threshold tol = .ok res ∧
      ((forwardRows df tol = [] ∨ reverseRows df tol = []) →
        res = unifiedSearch (sortByXP df) height prominence distance width threshold ∧
        ∀ p ∈ res, p.scanDirection = "unknown") ∧
      ((findPeaks ((sortByXP df).map PKRow.y) height (some prominence) distance
            width threshold = [] ∧
        findScanPeaks (forwardRows df tol) "forward" height prominence distance
            width threshold = [] ∧
        findScanPeaks (reverseRows df tol) "reverse" height prominence distance
            width threshold = []) →
        res = []) := by
  have hlen : (sortByXP df).length = df.length := by
    rw [sortByXP, List.length_insertionSort]
  have hnotlt : ¬(sortByXP df).length < 2 := by omega
  have hxlen : ((sortByXP df).map PKRow.x).length = (sortByXP df).length :=
    List.length_map _ _
  have hflen : (sortByXP df).length = (forwardMask ((sortByXP df).map PKRow.x) tol).length := by
    rw [forwardMask, List.length_map, smoothedGradient_length, hxlen]
  have hrlen : (sortByXP df).length = (reverseMask ((sortByXP df).map PKRow.x) tol).length := by
    rw [reverseMask, List.length_map, smoothedGradient_length, hxlen]
  have hfiff := maskFilter_eq_nil_iff (sortByXP df)
    (forwardMask ((sortByXP df).map PKRow.x) tol) hflen
  have hriff := maskFilter_eq_nil_iff (sortByXP df)
    (reverseMask ((sortByXP df).map PKRow.x) tol) hrlen
  by_cases hc :
      (forwardMask ((sortByXP df).map PKRow.x) tol).all (· = false) = true ∨
      (reverseMask ((sortByXP df).map PKRow.x) tol).all (· = false) = true
  · refine ⟨unifiedSearch (sortByXP df) height prominence distance width threshold,
      ?_, ?_, ?_⟩
    · simp only [detect_peaks]
      rw [if_neg hnotlt, if_pos hc]
    · intro _
      exact ⟨rfl, unifiedSearch_direction _ _ _ _ _ _⟩
    · intro ⟨hfull, _, _⟩
      simp [unifiedSearch, hfull]
  · push_neg at hc
    obtain ⟨hcf, hcr⟩ := hc
    have hres : detect_peaks df height prominence distance width threshold tol =
        if findScanPeaks (forwardRows df tol) "forward" height prominence distance
              width threshold ++
            findScanPeaks (reverseRows df tol) "reverse" height prominence distance
              width threshold = [] then .ok []
        else .ok (sortPeaksByX
          (findScanPeaks (forwardRows df tol) "forward" height prominence distance
              width threshold ++
            findScanPeaks (reverseRows df tol) "reverse" height prominence distance
              width threshold)) := by
      simp only [detect_peaks]
      rw [if_neg hnotlt, if_neg (by push_neg; exact ⟨hcf, hcr⟩)]
      rfl
    by_cases hall :
        findScanPeaks (forwardRows df tol) "forward" height prominence distance
            width threshold ++
          findScanPeaks (reverseRows df tol) "reverse" height prominence distance
            width threshold = []
    · refine ⟨[], ?_, ?_, fun _ => rfl⟩
      · rw [hres, if_pos hall]
      · intro habs
        rcases habs with hf | hr
        · exact absurd (hfiff.mp hf) hcf
        · exact absurd (hriff.mp hr) hcr
    · refine ⟨sortPeaksByX
        (findScanPeaks (forwardRows df tol) "forward" height prominence distance
            width threshold ++
          findScanPeaks (reverseRows df tol) "reverse" height prominence distance
            width threshold), ?_, ?_, ?_⟩
      · rw [hres, if_neg hall]
      · intro habs
        rcases habs with hf | hr
        · exact absurd (hfiff.mp hf) hcf
        · exact absurd (hriff.mp hr) hcr
      · intro ⟨_, hf, hr⟩
        rw [hf, hr] at hall
        simp at hall

/-- `C6` counterexample to the claim as stated: on a one-row table (constant
`y`, no peaks anywhere) `detect_peaks` raises from `np.gradient` instead of
returning a zero-row result. -/
theorem detect_peaks_single_row_raises :
    detect_peaks [⟨0, 0, 5, 0⟩] none 1 none none none (1 / 1000000) =
      .error "np.gradient: at least 2 elements are required" := by
  rfl

/-- Witness for `detect_peaks_fallback`: a two-row constant-`y` table ends in
`.ok []`. -/
theorem detect_peaks_fallback_witness :
    2 ≤ ([⟨0, 0, 1, 0⟩, ⟨1, 1, 1, 0⟩] : List PKRow).length ∧
      detect_peaks [⟨0, 0, 1, 0⟩, ⟨1, 1, 1, 0⟩] none 1 none none none
        (1 / 1000000) = .ok [] := by
  refine ⟨by decide, ?_⟩
  obtain ⟨res, hok, _, hzero⟩ := detect_peaks_fallback
    [⟨0, 0, 1, 0⟩, ⟨1, 1, 1, 0⟩] none 1 none none none (1 / 1000000) (by decide)
  have h1 : findPeaks ((sortByXP [⟨0, 0, 1, 0⟩, ⟨1, 1, 1, 0⟩]).map PKRow.y) none
      (some 1) none none none = [] := by
    norm_num [sortByXP, List.insertionSort, List.orderedInsert, rlePK, findPeaks,
      localMaxima, lmLoop]
  have h2 : findScanPeaks (forwardRows [⟨0, 0, 1, 0⟩, ⟨1, 1, 1, 0⟩] (1 / 1000000))
      "forward" none 1 none none none = [] := by
    norm_num [forwardRows, sortByXP, List.insertionSort, List.orderedInsert, rlePK,
      forwardMask, maskFilter, smoothedGradient, npGradient, gradAt, List.range,
      List.range.loop, movingAvgValid, edgePad, findScanPeaks, findPeaks,
      localMaxima, lmLoop, List.zip_cons_cons, List.filterMap_cons]
  have h3 : findScanPeaks (reverseRows [⟨0, 0, 1, 0⟩, ⟨1, 1, 1, 0⟩] (1 / 1000000))
      "reverse" none 1 none none none = [] := by
    norm_num [reverseRows, sortByXP, List.insertionSort, List.orderedInsert, rlePK,
      reverseMask, maskFilter, smoothedGradient, npGradient, gradAt, List.range,
      List.range.loop, movingAvgValid, edgePad, findScanPeaks, findPeaks,
      localMaxima, lmLoop, List.zip_cons_cons, List.filterMap_cons]
  rw [← hzero ⟨h1, h2, h3⟩]
  exact hok

/-! ## The task-orchestration engine (`api.py`)

Task and CSV records use `ℕ` ids (the store's UUIDs are opaque tokens; only
identity matters). The persisted state mirrors the SQLAlchemy tables; note
that, as in the source, `finish_task` creates a `TaskTime` row without ever
linking it to its task (`tasks.time_id` is never set), so timing rows carry no
task reference and are modelled as a bare count. Hardware delays and the two
asyncio locks are irrelevant to the claims below and are elided; `pandas`
parsing is an oracle in `Env`. -/

inductive TaskStatus
  | pending
  | completed
  | running
  | error
deriving DecidableEq, Repr

inductive TaskType
  | cv
  | pumpTransfer
  | complexation
  | rollingMean
  | peakDetection
  | clean
deriving DecidableEq, Repr

inductive BufferT
  | ph7
  | ph3
deriving DecidableEq, Repr

inductive LigandT
  | l1
  | l2
deriving DecidableEq, Repr

inductive MetalT
  | v
  | fe
  | cu
deriving DecidableEq, Repr

structure CVInputSchema where
  vRange : List ℚ
  freq : ℚ
deriving DecidableEq, Repr

structure PumpInputSchema where
  source : ℤ
  target : ℤ
deriving DecidableEq, Repr

structure ComplexationInputSchema where
  buffer : BufferT × ℚ
  ligand : LigandT × ℚ
  metal : MetalT × ℚ
deriving DecidableEq, Repr

structure RollingMeanInputSchema where
  csvId : ℕ
  xCol : String
  yCol : String
  windowSize : ℕ
  minPeriods : Option ℕ
deriving DecidableEq, Repr

structure PeakDetectionInputSchema where
  csvId : ℕ
  xCol : String
  yCol : String
  height : Option ℚ
  prominence : ℚ
  distance : Option ℕ
  width : Option ℕ
  threshold : Option ℚ
deriving DecidableEq, Repr

/-- A submission payload, as parsed by the endpoint (`TaskInputType`). -/
inductive TaskInput
  | cvI (i : CVInputSchema)
  | pumpI (i : PumpInputSchema)
  | complexI (i : ComplexationInputSchema)
  | rmI (i : RollingMeanInputSchema)
  | pdI (i : PeakDetectionInputSchema)
  | noneI
deriving DecidableEq, Repr

inductive CsvType
  | cvraw
  | cvproc
deriving DecidableEq, Repr

/-- Stored CSV content: raw text read from disk, or a serialised table
produced by an analysis task. -/
inductive CsvContent
  | text (s : String)
  | rmTable (rows : List RMRow)
  | pkTable (peaks : List Peak)
deriving DecidableEq, Repr

structure TaskRec where
  id : ℕ
  ttype : TaskType
  status : TaskStatus
deriving DecidableEq, Repr

structure CsvRec where
  id : ℕ
  taskId : ℕ
  ctype : CsvType
  content : CsvContent
deriving DecidableEq, Repr

/-- The persisted store: one list per SQLAlchemy table (timing rows are a bare
count because the source never links them to a task). `nextId` models the
store's id generator. -/
structure DB where
  tasks : List TaskRec
  cvInputs : List (ℕ × CVInputSchema)
  pumpInputs : List (ℕ × PumpInputSchema)
  complexInputs : List (ℕ × ComplexationInputSchema)
  rmInputs : List (ℕ × RollingMeanInputSchema)
  pdInputs : List (ℕ × PeakDetectionInputSchema)
  pumpOutputs : List ℕ
  csvs : List CsvRec
  timeRecs : ℕ
  nextId : ℕ
deriving DecidableEq, Repr

def emptyDB : DB := ⟨[], [], [], [], [], [], [], [], 0, 0⟩

/-- External-collaborator oracles. `cvFileOk` is whether `open("test.csv")`
succeeds inside the CV body. The parse oracles model
`pd.read_csv` + column access on a stored content: `none` means `read_csv`
raised; `some none` means it parsed but the requested columns (or, for peak
detection, the `cycle` column) are absent so the body raises later, outside
the guarded fetch; `some (some rows)` is the parsed table. -/
structure Env where
  cvFileOk : Bool
  cvFileContent : String
  parseRM : CsvContent → String → String → Option (Option (List RMRow))
  parsePD : CsvContent → String → String → Option (Option (List PKRow))

/-- One committed store mutation of a task body. -/
inductive Action
  | setStatus (s : TaskStatus)
  | addTime
  | addCsv (ty : CsvType) (content : CsvContent)
  | addPumpOut
deriving DecidableEq, Repr

/-- Apply one store mutation on behalf of task `tid`. `setStatus` is the
unconditional `UPDATE tasks SET status WHERE id = tid` of `mark_task`. -/
def applyAction (db : DB) (tid : ℕ) : Action → DB
  | .setStatus s =>
      { db with tasks := db.tasks.map fun t =>
          if t.id = tid then { t with status := s } else t }
  | .addTime => { db with timeRecs := db.timeRecs + 1 }
  | .addCsv ty c =>
      { db with csvs := db.csvs ++ [⟨db.nextId, tid, ty, c⟩],
                nextId := db.nextId + 1 }
  | .addPumpOut => { db with pumpOutputs := db.pumpOutputs ++ [tid] }

/-- The body a scheduled job will run (what `asyncio.create_task` captured). -/
inductive JobSpec
  | cvJ (i : CVInputSchema)
  | pumpJ (i : PumpInputSchema)
  | complexJ (i : ComplexationInputSchema)
  | rmJ (i : RollingMeanInputSchema)
  | pdJ (i : PeakDetectionInputSchema)
  | cleanJ
deriving DecidableEq, Repr

def csvLookup (db : DB) (cid : ℕ) : Option CsvRec :=
  db.csvs.find? fun c => c.id = cid

/-- The successful rolling-mean pipeline: `df.dropna()`, run `rolling_mean`,
assign the result back to the `y` column by index alignment. -/
def rmProcess (rows : List RMRow) (inp : RollingMeanInputSchema) : List RMRow :=
  let dfd := rows.filter fun r => r.y.isSome
  let res := rolling_mean dfd inp.windowSize inp.minPeriods
  dfd.map fun r => { r with y := valueAt res r.idx }

def maxCycle (rows : List PKRow) : ℚ :=
  (rows.map PKRow.cycle).foldl max ((rows.headD ⟨0, 0, 0, 0⟩).cycle)

/-- `execute_cv_task` as its sequence of committed store writes plus whether
the coroutine raised. There is no try/except in the body: if the file read
fails after `mark_task_running`, the exception propagates into the stored
future and no further status is written. -/
def execute_cv_task (env : Env) : List Action × Bool :=
  if env.cvFileOk then
    ([.setStatus .running, .addTime, .addCsv .cvraw (.text env.cvFileContent),
      .setStatus .completed], false)
  else ([.setStatus .running], true)

def execute_clean_task : List Action × Bool :=
  ([.setStatus .running, .addTime, .setStatus .completed], false)

def execute_pump_task : List Action × Bool :=
  ([.setStatus .running, .addTime, .addPumpOut, .setStatus .completed], false)

def execute_complexation_task : List Action × Bool :=
  ([.setStatus .running, .addTime, .setStatus .completed], false)

/-- `execute_rolling_mean_task`: on a missing or unparsable CSV,
`get_csv_as_dataframe` marks the task `Error` and returns `None`; the body
then calls `.dropna()` on `None` *before* its `None` check, so it additionally
raises. On a parsed table whose requested columns are absent the body raises
with no `Error` mark. -/
def execute_rolling_mean_task (env : Env) (db : DB)
    (inp : RollingMeanInputSchema) : List Action × Bool :=
  match csvLookup db inp.csvId with
  | none => ([.setStatus .running, .setStatus .error], true)
  | some c =>
      match env.parseRM c.content inp.xCol inp.yCol with
      | none => ([.setStatus .running, .setStatus .error], true)
      | some none => ([.setStatus .running], true)
      | some (some rows) =>
          ([.setStatus .running, .addTime,
            .addCsv .cvproc (.rmTable (rmProcess rows inp)),
            .setStatus .completed], false)

/-- `execute_peak_detection_task`: the `None` check follows the fetch directly
(no premature `dropna`), so a missing/unparsable CSV marks `Error` and returns
cleanly; a parsed table without the needed columns, an empty cycle subset, or
a sub-2-row cycle subset raises after the fetch with no `Error` mark. -/
def execute_peak_detection_task (env : Env) (db : DB)
    (inp : PeakDetectionInputSchema) : List Action × Bool :=
  match csvLookup db inp.csvId with
  | none => ([.setStatus .running, .setStatus .error], false)
  | some c =>
      match env.parsePD c.content inp.xCol inp.yCol with
      | none => ([.setStatus .running, .setStatus .error], false)
      | some none => ([.setStatus .running], true)
      | some (some rows) =>
          if rows = [] then ([.setStatus .running], true)
          else
            match detect_peaks (rows.filter fun r => r.cycle = maxCycle rows)
                inp.height inp.prominence inp.distance inp.width inp.threshold
                (1 / 1000000) with
            | .error _ => ([.setStatus .running], true)
            | .ok peaks =>
                ([.setStatus .running, .addTime,
                  .addCsv .cvproc (.pkTable peaks), .setStatus .completed], false)

/-- Dispatch to the per-type body. -/
def bodyActions (env : Env) (db : DB) : JobSpec → List Action × Bool
  | .cvJ _ => execute_cv_task env
  | .pumpJ _ => execute_pump_task
  | .complexJ _ => execute_complexation_task
  | .rmJ i => execute_rolling_mean_task env db i
  | .pdJ i => execute_peak_detection_task env db i
  | .cleanJ => execute_clean_task

/-- The lifecycle of an entry of the `FUTURES` table. `active` appears only in
the fine-grained step relation used for the status-transition invariant. -/
inductive JobState
  | scheduled
  | active (remaining : List Action) (willRaise : Bool)
  | finished (raised : Bool)
deriving DecidableEq, Repr

structure Job where
  taskId : ℕ
  spec : JobSpec
  state : JobState
deriving DecidableEq, Repr

structure Engine where
  db : DB
  jobs : List Job
deriving DecidableEq, Repr

def emptyEngine : Engine := ⟨emptyDB, []⟩

def taskLookup (db : DB) (tid : ℕ) : Option TaskRec :=
  db.tasks.find? fun t => t.id = tid

def statusOf (e : Engine) (tid : ℕ) : Option TaskStatus :=
  (taskLookup e.db tid).map TaskRec.status

def jobFind (e : Engine) (tid : ℕ) : Option Job :=
  e.jobs.find? fun j => j.taskId = tid

/-- `create_db_task`'s shape validation: the guarded `match` cases of the five
typed inputs. There is no `CLEAN` case in the source's match, so a Clean
submission falls into `case _` and is rejected with HTTP 400. -/
def validInput : TaskType → TaskInput → Option JobSpec
  | .cv, .cvI i => some (.cvJ i)
  | .pumpTransfer, .pumpI i => some (.pumpJ i)
  | .complexation, .complexI i => some (.complexJ i)
  | .rollingMean, .rmI i => some (.rmJ i)
  | .peakDetection, .pdI i => some (.pdJ i)
  | _, _ => none

def addInputRec (db : DB) (tid : ℕ) : JobSpec → DB
  | .cvJ i => { db with cvInputs := db.cvInputs ++ [(tid, i)] }
  | .pumpJ i => { db with pumpInputs := db.pumpInputs ++ [(tid, i)] }
  | .complexJ i => { db with complexInputs := db.complexInputs ++ [(tid, i)] }
  | .rmJ i => { db with rmInputs := db.rmInputs ++ [(tid, i)] }
  | .pdJ i => { db with pdInputs := db.pdInputs ++ [(tid, i)] }
  | .cleanJ => db

/-- The task-creation endpoints + `create_db_task`: validate the payload
(HTTP 400 on mismatch, nothing persisted), commit the `Pending` task record
and its input record, then install the execution job in `FUTURES` — still
unstarted — and return the new id. -/
def create_task (e : Engine) (t : TaskType) (inp : TaskInput) :
    Except ℕ (ℕ × Engine) :=
  match validInput t inp with
  | none => .error 400
  | some spec =>
      let tid := e.db.nextId
      let db1 := { e.db with
        tasks := e.db.tasks ++ [⟨tid, t, .pending⟩],
        nextId := e.db.nextId + 1 }
      .ok (tid, { db := addInputRec db1 tid spec,
                  jobs := e.jobs ++ [⟨tid, spec, .scheduled⟩] })

def setJobState (jobs : List Job) (tid : ℕ) (st : JobState) : List Job :=
  jobs.map fun j => if j.taskId = tid then { j with state := st } else j

/-- Run a scheduled job to completion: apply its body's store writes and mark
the future done, remembering whether the coroutine raised (the exception stays
inside the future, exactly as asyncio stores it). -/
def runJob (env : Env) (e : Engine) (tid : ℕ) : Engine :=
  match jobFind e tid with
  | some j =>
      match j.state with
      | .scheduled =>
          { db := (bodyActions env e.db j.spec).1.foldl
              (fun d a => applyAction d tid a) e.db,
            jobs := setJobState e.jobs tid (.finished (bodyActions env e.db j.spec).2) }
      | _ => e
  | none => e

structure Snapshot where
  id : ℕ
  ttype : TaskType
  status : TaskStatus
deriving DecidableEq, Repr

/-- `task_id in FUTURES and not FUTURES[task_id].done()`. -/
def jobUnfinished (e : Engine) (tid : ℕ) : Bool :=
  match jobFind e tid with
  | some j => match j.state with
    | .finished _ => false
    | _ => true
  | none => false

/-- `read_task`: await the still-unfinished future — swallowing any exception
it stored (`except Exception: pass`) — then load the persisted snapshot,
404 when the record is absent. -/
def read_task (env : Env) (e : Engine) (tid : ℕ) : Except ℕ Snapshot × Engine :=
  let e2 := if jobUnfinished e tid then runJob env e tid else e
  match taskLookup e2.db tid with
  | none => (.error 404, e2)
  | some t => (.ok ⟨t.id, t.ttype, t.status⟩, e2)

/-- Whether some row of a table declaring `ForeignKey("tasks.id")` — the five
input tables, `pump_outputs` and `csv_data`; `task_times` has no such column —
references `tid`. None of these constraints is declared `ON DELETE CASCADE`,
so deleting a referenced `tasks` row violates them. -/
def hasChildRows (db : DB) (tid : ℕ) : Bool :=
  (db.cvInputs.any fun p => p.1 = tid) ||
  (db.pumpInputs.any fun p => p.1 = tid) ||
  (db.complexInputs.any fun p => p.1 = tid) ||
  (db.rmInputs.any fun p => p.1 = tid) ||
  (db.pdInputs.any fun p => p.1 = tid) ||
  (db.pumpOutputs.any fun t => t = tid) ||
  (db.csvs.any fun c => c.taskId = tid)

/-- `delete_task`: HTTP 409 while an unfinished handle exists; then
`DELETE FROM tasks WHERE id = task_id`. If that statement removes a row that
some child row still references, the database rejects it (foreign-key default
NO ACTION), the IntegrityError escapes the endpoint unhandled (HTTP 500), the
transaction rolls back and the handle is not popped. A DELETE matching no row
cannot violate anything; on success the task row (if any) is gone and the
handle popped — no other table is touched (no cascade is configured). -/
def delete_task (e : Engine) (tid : ℕ) : Except ℕ Engine :=
  if jobUnfinished e tid then .error 409
  else if (e.db.tasks.any fun t => t.id = tid) && hasChildRows e.db tid then
    .error 500
  else
    .ok { db := { e.db with tasks := e.db.tasks.filter fun t => t.id ≠ tid },
          jobs := e.jobs.filter fun j => j.taskId ≠ tid }

/-! ### Store-lookup lemmas -/

theorem addInputRec_tasks (db : DB) (tid : ℕ) (sp : JobSpec) :
    (addInputRec db tid sp).tasks = db.tasks := by cases sp <;> rfl

theorem addInputRec_csvs (db : DB) (tid : ℕ) (sp : JobSpec) :
    (addInputRec db tid sp).csvs = db.csvs := by cases sp <;> rfl

theorem addInputRec_pumpOutputs (db : DB) (tid : ℕ) (sp : JobSpec) :
    (addInputRec db tid sp).pumpOutputs = db.pumpOutputs := by cases sp <;> rfl

theorem addInputRec_timeRecs (db : DB) (tid : ℕ) (sp : JobSpec) :
    (addInputRec db tid sp).timeRecs = db.timeRecs := by cases sp <;> rfl

theorem addInputRec_nextId (db : DB) (tid : ℕ) (sp : JobSpec) :
    (addInputRec db tid sp).nextId = db.nextId := by cases sp <;> rfl

theorem find?_append_none {α : Type} (p : α → Bool) :
    ∀ (l₁ l₂ : List α), l₁.find? p = none → (l₁ ++ l₂).find? p = l₂.find? p
  | [], _, _ => rfl
  | a :: l₁, l₂, h => by
      rcases hpa : p a with _ | _
      · rw [List.cons_append, List.find?_cons_of_neg _ (by simp [hpa])]
        rw [List.find?_cons_of_neg _ (by simp [hpa])] at h
        exact find?_append_none p l₁ l₂ h
      · rw [List.find?_cons_of_pos _ hpa] at h
        exact absurd h (by simp)

theorem any_eq_false_of_find?_eq_none {α : Type} (p : α → Bool) :
    ∀ l : List α, l.find? p = none → l.any p = false
  | [], _ => rfl
  | a :: l, h => by
      rcases hpa : p a with _ | _
      · rw [List.find?_cons_of_neg _ (by simp [hpa])] at h
        simp [List.any_cons, hpa, any_eq_false_of_find?_eq_none p l h]
      · rw [List.find?_cons_of_pos _ hpa] at h
        exact absurd h (by simp)

theorem find?_some_of_any {α : Type} (p : α → Bool) :
    ∀ l : List α, l.any p = true → ∃ x, l.find? p = some x
  | [], h => by simp at h
  | a :: l, h => by
      rcases hpa : p a with _ | _
      · rw [List.find?_cons_of_neg _ (by simp [hpa])]
        refine find?_some_of_any p l ?_
        simpa [List.any_cons, hpa] using h
      · exact ⟨a, List.find?_cons_of_pos _ hpa⟩

theorem find?_map_ite_key_other {α : Type} (key : α → ℕ) (upd : α → α)
    (hkey : ∀ x, key (upd x) = key x) (tid tid2 : ℕ) (hne : tid2 ≠ tid) :
    ∀ l : List α,
      ((l.map fun x => if key x = tid then upd x else x).find? fun x =>
          key x = tid2) =
        l.find? fun x => key x = tid2
  | [] => rfl
  | a :: l => by
      by_cases ha : key a = tid
      · have ha2 : ¬(key a = tid2) := fun h => hne (h ▸ ha)
        have ha2' : ¬(key (upd a) = tid2) := by rw [hkey]; exact ha2
        rw [List.map_cons, if_pos ha,
          List.find?_cons_of_neg _ (by simp [ha2']),
          List.find?_cons_of_neg _ (by simp [ha2])]
        exact find?_map_ite_key_other key upd hkey tid tid2 hne l
      · rw [List.map_cons, if_neg ha]
        by_cases ha2 : key a = tid2
        · rw [List.find?_cons_of_pos _ (by simp [ha2]),
            List.find?_cons_of_pos _ (by simp [ha2])]
        · rw [List.find?_cons_of_neg _ (by simp [ha2]),
            List.find?_cons_of_neg _ (by simp [ha2])]
          exact find?_map_ite_key_other key upd hkey tid tid2 hne l

theorem find?_map_ite_key_self {α : Type} (key : α → ℕ) (upd : α → α)
    (hkey : ∀ x, key (upd x) = key x) (tid : ℕ) :
    ∀ l : List α,
      ((l.map fun x => if key x = tid then upd x else x).find? fun x =>
          key x = tid) =
        (l.find? fun x => key x = tid).map upd
  | [] => rfl
  | a :: l => by
      by_cases ha : key a = tid
      · rw [List.map_cons, if_pos ha,
          List.find?_cons_of_pos _ (by simp [hkey, ha]),
          List.find?_cons_of_pos _ (by simp [ha])]
        rfl
      · rw [List.map_cons, if_neg ha,
          List.find?_cons_of_neg _ (by simp [ha]),
          List.find?_cons_of_neg _ (by simp [ha])]
        exact find?_map_ite_key_self key upd hkey tid l

theorem find?_filter_ne_self {α : Type} (key : α → ℕ) (tid : ℕ) :
    ∀ l : List α,
      ((l.filter fun x => key x ≠ tid).find? fun x => key x = tid) = none := by
  intro l
  rw [List.find?_eq_none]
  intro x hx
  have h := (List.mem_filter.mp hx).2
  simp only [ne_eq, decide_not, Bool.not_eq_eq_eq_not, Bool.not_true,
    decide_eq_false_iff_not] at h
  simp [h]

theorem find?_filter_ne_other {α : Type} (key : α → ℕ) (tid tid2 : ℕ)
    (hne : tid2 ≠ tid) :
    ∀ l : List α,
      ((l.filter fun x => key x ≠ tid).find? fun x => key x = tid2) =
        l.find? fun x => key x = tid2
  | [] => rfl
  | a :: l => by
      by_cases ha2 : key a = tid2
      · have ha : (key a ≠ tid) := fun h => hne (ha2 ▸ h)
        rw [List.filter_cons_of_pos (by simp [ha]),
          List.find?_cons_of_pos _ (by simp [ha2]),
          List.find?_cons_of_pos _ (by simp [ha2])]
      · by_cases ha : key a = tid
        · rw [List.filter_cons_of_neg (by simp [ha])]
          rw [List.find?_cons_of_neg _ (by simp [ha2])]
          exact find?_filter_ne_other key tid tid2 hne l
        · rw [List.filter_cons_of_pos (by simp [ha]),
            List.find?_cons_of_neg _ (by simp [ha2]),
            List.find?_cons_of_neg _ (by simp [ha2])]
          exact find?_filter_ne_other key tid tid2 hne l

theorem taskLookup_applyAction_other (db : DB) (tid tid2 : ℕ) (a : Action)
    (hne : tid2 ≠ tid) :
    taskLookup (applyAction db tid a) tid2 = taskLookup db tid2 := by
  cases a with
  | setStatus s =>
      exact find?_map_ite_key_other TaskRec.id (fun t => { t with status := s })
        (fun _ => rfl) tid tid2 hne db.tasks
  | addTime => rfl
  | addCsv ty c => rfl
  | addPumpOut => rfl

theorem taskLookup_foldl_other (tid tid2 : ℕ) (hne : tid2 ≠ tid) :
    ∀ (as : List Action) (db : DB),
      taskLookup (as.foldl (fun d a => applyAction d tid a) db) tid2 =
        taskLookup db tid2
  | [], _ => rfl
  | a :: as, db => by
      rw [List.foldl_cons, taskLookup_foldl_other tid tid2 hne as,
        taskLookup_applyAction_other db tid tid2 a hne]

theorem taskLookup_setStatus_self (db : DB) (tid : ℕ) (s : TaskStatus) :
    taskLookup (applyAction db tid (.setStatus s)) tid =
      (taskLookup db tid).map fun t => { t with status := s } :=
  find?_map_ite_key_self TaskRec.id (fun t => { t with status := s })
    (fun _ => rfl) tid db.tasks

theorem taskLookup_applyAction_nonstatus (db : DB) (tid tid2 : ℕ) (a : Action)
    (ha : ∀ s, a ≠ .setStatus s) :
    taskLookup (applyAction db tid a) tid2 = taskLookup db tid2 := by
  cases a with
  | setStatus s => exact absurd rfl (ha s)
  | addTime => rfl
  | addCsv ty c => rfl
  | addPumpOut => rfl

theorem jobFind_setJobState_other (e : Engine) (tid tid2 : ℕ) (st : JobState)
    (hne : tid2 ≠ tid) :
    ((setJobState e.jobs tid st).find? fun j => j.taskId = tid2) =
      jobFind e tid2 :=
  find?_map_ite_key_other Job.taskId (fun j => { j with state := st })
    (fun _ => rfl) tid tid2 hne e.jobs

theorem jobFind_setJobState_self (e : Engine) (tid : ℕ) (st : JobState) :
    ((setJobState e.jobs tid st).find? fun j => j.taskId = tid) =
      (jobFind e tid).map fun j => { j with state := st } :=
  find?_map_ite_key_self Job.taskId (fun j => { j with state := st })
    (fun _ => rfl) tid e.jobs

/-! ### Claims about the engine operations -/

/-- `C3`: for the five task types whose payloads `create_db_task` accepts, a
successful submission persists the `Pending` task record (observably — it is
in the committed store of the returned state), installs the execution job
still `scheduled` (no body write has happened: no output, no timing row), and
returns the handle immediately. The claim fails for Clean: the source's
validation `match` has no `CLEAN` case, so submitting the valid
`(Clean, no-input)` pair always hits `case _` and is rejected with HTTP 400
with nothing persisted. -/
theorem create_task_pending_before_run :
    (∀ (e : Engine) (t : TaskType) (inp : TaskInput) (tid : ℕ) (e2 : Engine),
      (∀ tr ∈ e.db.tasks, tr.id < e.db.nextId) →
      (∀ j ∈ e.jobs, j.taskId < e.db.nextId) →
      create_task e t inp = .ok (tid, e2) →
        taskLookup e2.db tid = some ⟨tid, t, .pending⟩ ∧
        (∃ sp, validInput t inp = some sp ∧
          jobFind e2 tid = some ⟨tid, sp, .scheduled⟩) ∧
        e2.db.csvs = e.db.csvs ∧
        e2.db.pumpOutputs = e.db.pumpOutputs ∧
        e2.db.timeRecs = e.db.timeRecs) ∧
    (∀ e : Engine, create_task e .clean .noneI = .error 400) := by
  constructor
  · intro e t inp tid e2 hb hjb hok
    rcases hsp : validInput t inp with _ | sp
    · rw [create_task, hsp] at hok
      exact absurd hok (by simp)
    · rw [create_task, hsp] at hok
      simp only [Except.ok.injEq, Prod.mk.injEq] at hok
      obtain ⟨rfl, rfl⟩ := hok
      refine ⟨?_, ⟨sp, rfl, ?_⟩, ?_, ?_, ?_⟩
      · rw [taskLookup, addInputRec_tasks]
        rw [find?_append_none _ _ _ ?_]
        · simp [List.find?]
        · rw [List.find?_eq_none]
          intro tr htr
          simp only [decide_eq_true_eq]
          exact fun h => absurd (h ▸ hb tr htr) (lt_irrefl _)
      · rw [jobFind]
        rw [find?_append_none _ _ _ ?_]
        · simp [List.find?]
        · rw [List.find?_eq_none]
          intro j hj
          simp only [decide_eq_true_eq]
          exact fun h => absurd (h ▸ hjb j hj) (lt_irrefl _)
      · rw [addInputRec_csvs]
      · rw [addInputRec_pumpOutputs]
      · rw [addInputRec_timeRecs]
  · intro e
    rfl

/-- Witness for `create_task_pending_before_run` on the empty engine. -/
theorem create_task_pending_before_run_witness :
    (∀ tr ∈ emptyEngine.db.tasks, tr.id < emptyEngine.db.nextId) ∧
    (∀ j ∈ emptyEngine.jobs, j.taskId < emptyEngine.db.nextId) ∧
    ∃ e2, create_task emptyEngine .pumpTransfer (.pumpI ⟨1, 2⟩) = .ok (0, e2) ∧
      taskLookup e2.db 0 = some ⟨0, .pumpTransfer, .pending⟩ := by
  refine ⟨by simp [emptyEngine, emptyDB], by simp [emptyEngine, emptyDB], ?_⟩
  refine ⟨_, rfl, ?_⟩
  exact (create_task_pending_before_run.1 emptyEngine .pumpTransfer
    (.pumpI ⟨1, 2⟩) 0 _ (by simp [emptyEngine, emptyDB])
    (by simp [emptyEngine, emptyDB]) rfl).1

/-- `C10`: deleting an id that has no persisted task record and no unfinished
job handle succeeds (`delete_task` has no not-found branch), and deleting it
again immediately succeeds as well. -/
theorem delete_task_absent_succeeds (e : Engine) (tid : ℕ)
    (hrec : taskLookup e.db tid = none) (hjob : jobUnfinished e tid = false) :
    ∃ e2, delete_task e tid = .ok e2 ∧ ∃ e3, delete_task e2 tid = .ok e3 := by
  have hrec2 : (e.db.tasks.find? fun t => t.id = tid) = none := hrec
  have hany : (e.db.tasks.any fun t => t.id = tid) = false :=
    any_eq_false_of_find?_eq_none _ _ hrec2
  have h1 : delete_task e tid =
      .ok { db := { e.db with tasks := e.db.tasks.filter fun t => t.id ≠ tid },
            jobs := e.jobs.filter fun j => j.taskId ≠ tid } := by
    rw [delete_task, if_neg (by simp [hjob]), if_neg (by simp [hany])]
  refine ⟨_, h1, ?_⟩
  have hjf : (List.find? (fun j => j.taskId = tid)
      (e.jobs.filter fun j => j.taskId ≠ tid)) = none :=
    find?_filter_ne_self Job.taskId tid e.jobs
  have hju : jobUnfinished
      { db := { e.db with tasks := e.db.tasks.filter fun t => t.id ≠ tid },
        jobs := e.jobs.filter fun j => j.taskId ≠ tid } tid = false := by
    simp only [jobUnfinished, jobFind, hjf]
  have hany2 : ((e.db.tasks.filter fun t => t.id ≠ tid).any
      fun t => t.id = tid) = false :=
    any_eq_false_of_find?_eq_none _ _
      (find?_filter_ne_self TaskRec.id tid e.db.tasks)
  exact ⟨_, by rw [delete_task,
    if_neg (by simp only [hju]; exact Bool.false_ne_true),
    if_neg (by simp [hany2])]⟩

/-- Witness for `delete_task_absent_succeeds` on the empty engine. -/
theorem delete_task_absent_succeeds_witness :
    taskLookup emptyEngine.db 0 = none ∧ jobUnfinished emptyEngine 0 = false ∧
      ∃ e2, delete_task emptyEngine 0 = .ok e2 ∧
        ∃ e3, delete_task e2 0 = .ok e3 := by
  exact ⟨rfl, rfl, delete_task_absent_succeeds emptyEngine 0 rfl rfl⟩

/-- `C8` (amended): `delete_task` returns Conflict exactly while an unfinished
handle exists. Once the handle is finished (or absent), a persisted task that
still has an associated input or output row — every task the API persists gets
an input row at creation — cannot be deleted: the `DELETE FROM tasks` violates
the foreign-key constraints (no `ON DELETE CASCADE` is configured), the
endpoint fails with an unhandled database error (HTTP 500), and the task
record, its associated records and the handle all survive, so a subsequent
`get` still finds the task. Only when no stored row references the id does
delete succeed, and then it removes the task row alone, discards the handle,
leaves every non-`tasks` table untouched, and a subsequent `get` reports
NotFound. -/
theorem delete_task_semantics (env : Env) (e : Engine) (tid : ℕ) :
    (jobUnfinished e tid = true → delete_task e tid = .error 409) ∧
    (jobUnfinished e tid = false →
      (e.db.tasks.any fun t => t.id = tid) = true →
      hasChildRows e.db tid = true →
      delete_task e tid = .error 500 ∧ ∃ tr, taskLookup e.db tid = some tr) ∧
    (jobUnfinished e tid = false →
      ((e.db.tasks.any fun t => t.id = tid) && hasChildRows e.db tid) = false →
      ∃ e2, delete_task e tid = .ok e2 ∧
        taskLookup e2.db tid = none ∧
        jobFind e2 tid = none ∧
        e2.db.cvInputs = e.db.cvInputs ∧
        e2.db.pumpInputs = e.db.pumpInputs ∧
        e2.db.complexInputs = e.db.complexInputs ∧
        e2.db.rmInputs = e.db.rmInputs ∧
        e2.db.pdInputs = e.db.pdInputs ∧
        e2.db.pumpOutputs = e.db.pumpOutputs ∧
        e2.db.csvs = e.db.csvs ∧
        e2.db.timeRecs = e.db.timeRecs ∧
        (read_task env e2 tid).1 = .error 404) := by
  refine ⟨?_, ?_, ?_⟩
  · intro h
    rw [delete_task, if_pos h]
  · intro h hany hchild
    refine ⟨?_, ?_⟩
    · rw [delete_task, if_neg (by simp [h]), if_pos (by simp [hany, hchild])]
    · exact find?_some_of_any _ _ hany
  · intro h hfree
    have h1 : delete_task e tid =
        .ok { db := { e.db with tasks := e.db.tasks.filter fun t => t.id ≠ tid },
              jobs := e.jobs.filter fun j => j.taskId ≠ tid } := by
      rw [delete_task, if_neg (by simp [h]),
        if_neg (by simp only [hfree]; exact Bool.false_ne_true)]
    refine ⟨_, h1, ?_, ?_, rfl, rfl, rfl, rfl, rfl, rfl, rfl, rfl, ?_⟩
    · exact find?_filter_ne_self TaskRec.id tid e.db.tasks
    · exact find?_filter_ne_self Job.taskId tid e.jobs
    · have hjf : jobUnfinished
          { db := { e.db with tasks := e.db.tasks.filter fun t => t.id ≠ tid },
            jobs := e.jobs.filter fun j => j.taskId ≠ tid } tid = false := by
        simp only [jobUnfinished, jobFind, find?_filter_ne_self Job.taskId tid e.jobs]
      rw [read_task]
      simp only [hjf, Bool.false_eq_true, if_false,
        taskLookup, find?_filter_ne_self TaskRec.id tid e.db.tasks]

/-- A finished CV task as the store really holds it: the task row, its input
row, its raw output CSV and a timing row, with the handle done. -/
def cvDoneEngine : Engine :=
  ⟨{ emptyDB with
      tasks := [⟨0, .cv, .completed⟩],
      cvInputs := [(0, ⟨[], 1⟩)],
      csvs := [⟨1, 0, .cvraw, .text "v"⟩],
      timeRecs := 1,
      nextId := 2 },
    [⟨0, .cvJ ⟨[], 1⟩, .finished false⟩]⟩

/-- Witness for `delete_task_semantics` (all three branches at concrete
engines). -/
theorem delete_task_semantics_witness :
    (jobUnfinished ⟨emptyDB, [⟨0, .cleanJ, .scheduled⟩]⟩ 0 = true ∧
      delete_task ⟨emptyDB, [⟨0, .cleanJ, .scheduled⟩]⟩ 0 = .error 409) ∧
    (jobUnfinished cvDoneEngine 0 = false ∧
      delete_task cvDoneEngine 0 = .error 500) ∧
    (jobUnfinished emptyEngine 0 = false ∧
      ∃ e2, delete_task emptyEngine 0 = .ok e2 ∧ taskLookup e2.db 0 = none) := by
  refine ⟨?_, ?_, ?_⟩
  · exact ⟨rfl, (delete_task_semantics
      ⟨false, "", fun _ _ _ => none, fun _ _ _ => none⟩
      ⟨emptyDB, [⟨0, .cleanJ, .scheduled⟩]⟩ 0).1 rfl⟩
  · exact ⟨rfl, ((delete_task_semantics
      ⟨false, "", fun _ _ _ => none, fun _ _ _ => none⟩
      cvDoneEngine 0).2.1 rfl rfl rfl).1⟩
  · refine ⟨rfl, ?_⟩
    obtain ⟨e2, hdel, hlook, _⟩ := (delete_task_semantics
      ⟨false, "", fun _ _ _ => none, fun _ _ _ => none⟩ emptyEngine 0).2.2 rfl rfl
    exact ⟨e2, hdel, hlook⟩

/-- `C8` counterexample to the claim as stated: a completed CV task with an
input record and a stored output CSV. The claim says delete succeeds, removes
the task together with all associated records, and a subsequent `get` reports
NotFound; instead the `DELETE FROM tasks` hits the foreign-key constraints of
the input and `csv_data` rows, the endpoint fails with an unhandled database
error (HTTP 500), and the task is still found afterwards. -/
theorem delete_task_fk_violation :
    delete_task cvDoneEngine 0 = .error 500 ∧
    taskLookup cvDoneEngine.db 0 = some ⟨0, .cv, .completed⟩ ∧
    cvDoneEngine.db.cvInputs = [(0, ⟨[], 1⟩)] ∧
    cvDoneEngine.db.csvs = [⟨1, 0, .cvraw, .text "v"⟩] := by
  exact ⟨rfl, rfl, rfl, rfl⟩

/-- `C1` (amended): for every task whose body raises, `get` never re-raises the
stored exception (the only reader error is 404), and the body run touches no
other task's record or job handle. The task is marked `Error` only when the
failure is the guarded CSV fetch/parse of an analysis task; for any other body
failure — here a CV task whose file read fails — the task stays in status
`Running` (the job finishes with its exception stored, swallowed by `get`). -/
theorem body_failure_isolated (env : Env) (e : Engine) (tid tid2 : ℕ)
    (hne : tid2 ≠ tid) :
    ((read_task env e tid).1 = .error 404 ∨
      ∃ s, (read_task env e tid).1 = .ok s) ∧
    taskLookup (runJob env e tid).db tid2 = taskLookup e.db tid2 ∧
    jobFind (runJob env e tid) tid2 = jobFind e tid2 ∧
    (∀ i tr, jobFind e tid = some ⟨tid, .cvJ i, .scheduled⟩ →
      env.cvFileOk = false → taskLookup e.db tid = some tr →
      statusOf (runJob env e tid) tid = some .running ∧
      jobFind (runJob env e tid) tid = some ⟨tid, .cvJ i, .finished true⟩) := by
  refine ⟨?_, ?_, ?_, ?_⟩
  · rw [read_task]
    rcases taskLookup (if jobUnfinished e tid then runJob env e tid else e).db tid
      with _ | t
    · left; rfl
    · right; exact ⟨_, rfl⟩
  · rw [runJob]
    rcases hj : jobFind e tid with _ | j
    · rfl
    · obtain ⟨jt, jsp, jst⟩ := j
      rcases jst with _ | ⟨rem, w⟩ | w
      · exact taskLookup_foldl_other tid tid2 hne _ e.db
      · rfl
      · rfl
  · rw [runJob]
    rcases hj : jobFind e tid with _ | j
    · rfl
    · obtain ⟨jt, jsp, jst⟩ := j
      rcases jst with _ | ⟨rem, w⟩ | w
      · exact jobFind_setJobState_other e tid tid2 _ hne
      · rfl
      · rfl
  · intro i tr hj hfile htr
    have hjeq : (⟨tid, .cvJ i, .scheduled⟩ : Job).state = JobState.scheduled := rfl
    have hbody : bodyActions env e.db (JobSpec.cvJ i) = ([.setStatus .running], true) := by
      rw [bodyActions, execute_cv_task, if_neg (by simp [hfile])]
    constructor
    · rw [statusOf, runJob, hj]
      simp only [hbody]
      rw [List.foldl_cons, List.foldl_nil, taskLookup_setStatus_self, htr]
      rfl
    · rw [runJob, hj]
      simp only [hbody]
      show (List.find? (fun j => j.taskId = tid) (setJobState e.jobs tid _)) = _
      rw [jobFind_setJobState_self, hj]
      rfl

def envFail : Env := ⟨false, "", fun _ _ _ => none, fun _ _ _ => none⟩

def envOkFile : Env := ⟨true, "", fun _ _ _ => none, fun _ _ _ => none⟩

def cvFailDB : DB :=
  { emptyDB with
    tasks := [⟨0, .cv, .pending⟩]
    cvInputs := [(0, ⟨[], 1⟩)]
    nextId := 1 }

def cvFailEngine : Engine := ⟨cvFailDB, [⟨0, .cvJ ⟨[], 1⟩, .scheduled⟩]⟩

/-- Witness for `body_failure_isolated` at a concrete engine holding a
scheduled CV job whose file read will fail. -/
theorem body_failure_isolated_witness :
    (1 : ℕ) ≠ 0 ∧ statusOf (runJob envFail cvFailEngine 0) 0 = some .running := by
  refine ⟨by decide, ?_⟩
  exact ((body_failure_isolated envFail cvFailEngine 0 1 (by decide)).2.2.2
    ⟨[], 1⟩ ⟨0, .cv, .pending⟩ rfl rfl rfl).1

/-- `C1` counterexample to the claim as stated: submit a CV task in an
environment where its body's file read raises; after the job runs, the task's
persisted status is `Running`, not `Error` (there is no try/except and no
`Error` mark in `execute_cv_task`), even though `get` duly returns the
snapshot without re-raising. -/
theorem cv_body_failure_not_marked_error :
    ∃ e1, create_task emptyEngine .cv (.cvI ⟨[], 1⟩) = .ok (0, e1) ∧
      jobFind (runJob envFail e1 0) 0 = some ⟨0, .cvJ ⟨[], 1⟩, .finished true⟩ ∧
      (read_task envFail (runJob envFail e1 0) 0).1 = .ok ⟨0, .cv, .running⟩ ∧
      statusOf (runJob envFail e1 0) 0 ≠ some .error := by
  refine ⟨_, rfl, rfl, rfl, by decide⟩

/-- `C7`: a RollingMean task whose input references a missing CSV id, or whose
stored content fails to parse, ends with persisted status `Error`
(`get_csv_as_dataframe` marks it before the body's subsequent `AttributeError`
on `None.dropna()`), and a reader sees that `Error` snapshot rather than any
exception. -/
theorem rolling_mean_missing_csv_errors (env : Env) (e : Engine) (tid : ℕ)
    (i : RollingMeanInputSchema) (tr : TaskRec)
    (hjob : jobFind e tid = some ⟨tid, .rmJ i, .scheduled⟩)
    (htask : taskLookup e.db tid = some tr)
    (hcsv : csvLookup e.db i.csvId = none ∨
      ∃ c, csvLookup e.db i.csvId = some c ∧
        env.parseRM c.content i.xCol i.yCol = none) :
    statusOf (runJob env e tid) tid = some .error ∧
    ∃ s, (read_task env (runJob env e tid) tid).1 = .ok s ∧
      s.status = .error := by
  have hbody : bodyActions env e.db (JobSpec.rmJ i) =
      ([.setStatus .running, .setStatus .error], true) := by
    rw [bodyActions, execute_rolling_mean_task]
    rcases hcsv with hnone | ⟨c, hsome, hparse⟩
    · rw [hnone]
    · simp only [hsome, hparse]
  have hrun : runJob env e tid =
      { db := applyAction (applyAction e.db tid (.setStatus .running)) tid
          (.setStatus .error),
        jobs := setJobState e.jobs tid (.finished true) } := by
    rw [runJob, hjob]
    simp only [hbody]
    rfl
  have hstat : statusOf (runJob env e tid) tid = some .error := by
    rw [statusOf, hrun]
    show (taskLookup (applyAction (applyAction e.db tid (.setStatus .running)) tid
      (.setStatus .error)) tid).map TaskRec.status = some .error
    rw [taskLookup_setStatus_self, taskLookup_setStatus_self, htask]
    rfl
  refine ⟨hstat, ?_⟩
  have hjf2 : jobFind (runJob env e tid) tid =
      some ⟨tid, .rmJ i, .finished true⟩ := by
    rw [hrun]
    show (setJobState e.jobs tid (.finished true)).find?
      (fun j => j.taskId = tid) = _
    rw [jobFind_setJobState_self, hjob]
    rfl
  have hju : jobUnfinished (runJob env e tid) tid = false := by
    simp only [jobUnfinished, hjf2]
  rw [read_task]
  simp only [hju, Bool.false_eq_true, if_false]
  rcases hlook : taskLookup (runJob env e tid).db tid with _ | t
  · rw [statusOf, hlook] at hstat
    exact absurd hstat (by simp)
  · have hterr : t.status = .error := by
      rw [statusOf, hlook] at hstat
      simpa using hstat
    exact ⟨_, rfl, hterr⟩

def rmIn99 : RollingMeanInputSchema := ⟨99, "time", "current", 20, none⟩

def rmMissingDB : DB :=
  { emptyDB with
    tasks := [⟨0, .rollingMean, .pending⟩]
    rmInputs := [(0, rmIn99)]
    nextId := 1 }

def rmMissingEngine : Engine := ⟨rmMissingDB, [⟨0, .rmJ rmIn99, .scheduled⟩]⟩

/-- Witness for `rolling_mean_missing_csv_errors`: a scheduled RollingMean job
referencing CSV id 99, which is not stored. -/
theorem rolling_mean_missing_csv_errors_witness :
    jobFind rmMissingEngine 0 = some ⟨0, .rmJ rmIn99, .scheduled⟩ ∧
      statusOf (runJob envOkFile rmMissingEngine 0) 0 = some .error := by
  refine ⟨rfl, ?_⟩
  exact (rolling_mean_missing_csv_errors envOkFile rmMissingEngine 0 rmIn99
    ⟨0, .rollingMean, .pending⟩ rfl rfl (Or.inl rfl)).1

/-! ### The task status state machine (C2)

Engine execution at the granularity of the individual store commits: a task is
created `Pending`; its job is started once, applies its body's committed
writes one at a time, and finishes once; `delete` removes the record. The
invariant below shows every persisted status change follows an edge of
`Pending → Running → {Completed, Error}` and a finished job never runs
again. -/

/-- The statuses a list of store writes sets, in order. -/
def writesOf (as : List Action) : List TaskStatus :=
  as.filterMap fun a =>
    match a with
    | .setStatus s => some s
    | _ => none

/-- The legal edges of the task state machine. -/
def edgeOkB : TaskStatus → TaskStatus → Bool
  | .pending, .running => true
  | .running, .completed => true
  | .running, .error => true
  | _, _ => false

/-- `seqOkB s ts`: starting from `s`, the writes `ts` walk along legal edges. -/
def seqOkB : TaskStatus → List TaskStatus → Bool
  | _, [] => true
  | s, t :: ts => edgeOkB s t && seqOkB t ts

/-- One observable change of a task's persisted status: unchanged, created as
`Pending`, removed by delete, or one legal edge. -/
def statusEdgeOk : Option TaskStatus → Option TaskStatus → Bool
  | none, none => true
  | some s, some s2 => s = s2 || edgeOkB s s2
  | some _, none => true
  | none, some s => s = .pending

theorem statusEdgeOk_refl (o : Option TaskStatus) : statusEdgeOk o o = true := by
  cases o <;> simp [statusEdgeOk]

/-- Every task body writes `Running` first and then at most one terminal
status: a legal walk from `Pending`. -/
theorem bodyActions_writes (env : Env) (db : DB) (sp : JobSpec) :
    seqOkB .pending (writesOf (bodyActions env db sp).1) = true := by
  cases sp with
  | cvJ i =>
      rw [bodyActions, execute_cv_task]
      split <;> rfl
  | pumpJ i => rfl
  | complexJ i => rfl
  | cleanJ => rfl
  | rmJ i =>
      rw [bodyActions, execute_rolling_mean_task]
      repeat' split
      all_goals rfl
  | pdJ i =>
      rw [bodyActions, execute_peak_detection_task]
      repeat' split
      all_goals rfl

/-- The consistency a job's progress keeps with its task's persisted record. -/
def jobStateOk (db : DB) (j : Job) : Prop :=
  match j.state with
  | .scheduled => ∃ tr, taskLookup db j.taskId = some tr ∧ tr.status = .pending
  | .active rem _ =>
      ∃ tr, taskLookup db j.taskId = some tr ∧
        seqOkB tr.status (writesOf rem) = true
  | .finished _ => True

/-- Well-formedness of an engine state: store ids below the id counter and
unique, one job handle per task, and every job consistent with its record. -/
structure WF (e : Engine) : Prop where
  taskIdsBound : ∀ tr ∈ e.db.tasks, tr.id < e.db.nextId
  taskIdsNodup : (e.db.tasks.map TaskRec.id).Nodup
  jobIdsBound : ∀ j ∈ e.jobs, j.taskId < e.db.nextId
  jobIdsNodup : (e.jobs.map Job.taskId).Nodup
  jobsOk : ∀ j ∈ e.jobs, jobStateOk e.db j

theorem WF.emptyEngine : WF SDL2.emptyEngine := by
  constructor <;> simp [SDL2.emptyEngine, emptyDB]

/-- One committed transition of the engine: task creation, job start, one
store commit of a running body, job finalisation, or task deletion. `read`
mutates nothing beyond driving these same job steps, so it needs no
constructor of its own. -/
inductive Step (env : Env) : Engine → Engine → Prop
  | create (e : Engine) (t : TaskType) (inp : TaskInput) (tid : ℕ) (e2 : Engine) :
      create_task e t inp = .ok (tid, e2) → Step env e e2
  | start (e : Engine) (tid : ℕ) (j : Job) :
      jobFind e tid = some j → j.state = .scheduled →
      Step env e ⟨e.db, setJobState e.jobs tid
        (.active (bodyActions env e.db j.spec).1 (bodyActions env e.db j.spec).2)⟩
  | act (e : Engine) (tid : ℕ) (j : Job) (a : Action) (rest : List Action)
      (w : Bool) :
      jobFind e tid = some j → j.state = .active (a :: rest) w →
      Step env e ⟨applyAction e.db tid a, setJobState e.jobs tid (.active rest w)⟩
  | finishJob (e : Engine) (tid : ℕ) (j : Job) (w : Bool) :
      jobFind e tid = some j → j.state = .active [] w →
      Step env e ⟨e.db, setJobState e.jobs tid (.finished w)⟩
  | del (e : Engine) (tid : ℕ) (e2 : Engine) :
      delete_task e tid = .ok e2 → Step env e e2

theorem find?_append_some {α : Type} (p : α → Bool) (x : α) :
    ∀ (l₁ l₂ : List α), l₁.find? p = some x → (l₁ ++ l₂).find? p = some x
  | [], _, h => by simp at h
  | a :: l₁, l₂, h => by
      rcases hpa : p a with _ | _
      · rw [List.find?_cons_of_neg _ (by simp [hpa])] at h
        rw [List.cons_append, List.find?_cons_of_neg _ (by simp [hpa])]
        exact find?_append_some p x l₁ l₂ h
      · rw [List.find?_cons_of_pos _ hpa] at h
        rw [List.cons_append, List.find?_cons_of_pos _ hpa]
        exact h

theorem map_key_map_ite {α : Type} (key : α → ℕ) (upd : α → α)
    (hkey : ∀ x, key (upd x) = key x) (tid : ℕ) (l : List α) :
    ((l.map fun x => if key x = tid then upd x else x).map key) = l.map key := by
  rw [List.map_map]
  refine List.map_congr_left fun x _ => ?_
  by_cases h : key x = tid <;> simp [h, hkey]

theorem setJobState_map_taskId (jobs : List Job) (tid : ℕ) (st : JobState) :
    (setJobState jobs tid st).map Job.taskId = jobs.map Job.taskId := by
  rw [setJobState]
  exact map_key_map_ite Job.taskId (fun j => { j with state := st })
    (fun _ => rfl) tid jobs

theorem setStatus_map_id (tasks : List TaskRec) (tid : ℕ) (s : TaskStatus) :
    ((tasks.map fun t => if t.id = tid then { t with status := s } else t).map
      TaskRec.id) = tasks.map TaskRec.id :=
  map_key_map_ite TaskRec.id (fun t => { t with status := s })
    (fun _ => rfl) tid tasks

theorem jobFind_taskId (e : Engine) (tid : ℕ) (j : Job)
    (h : jobFind e tid = some j) : j.taskId = tid ∧ j ∈ e.jobs := by
  constructor
  · have := List.find?_some h
    simpa using this
  · exact List.mem_of_find?_eq_some h

theorem jobStateOk_of_lookup_eq (db db2 : DB) (j : Job)
    (h : taskLookup db2 j.taskId = taskLookup db j.taskId) :
    jobStateOk db j → jobStateOk db2 j := by
  obtain ⟨jt, jsp, jst⟩ := j
  cases jst with
  | scheduled =>
      rintro ⟨tr, hl, hp⟩
      exact ⟨tr, by rw [show (⟨jt, jsp, .scheduled⟩ : Job).taskId = jt from rfl] at h ⊢
                    exact h.trans hl, hp⟩
  | active rem w =>
      rintro ⟨tr, hl, hp⟩
      exact ⟨tr, by rw [show (⟨jt, jsp, .active rem w⟩ : Job).taskId = jt from rfl] at h ⊢
                    exact h.trans hl, hp⟩
  | finished w => intro _; trivial

/-- `C2`: along every committed engine transition, every task's persisted
status stays put, is created as `Pending`, is removed by `delete`, or follows
one edge of `Pending → Running → {Completed, Error}`; well-formedness is
preserved; and a job that has finished can only remain finished with the same
outcome or have its handle discarded — a task is never re-run. -/
theorem status_transition_invariant (env : Env) (e e2 : Engine)
    (hwf : WF e) (hs : Step env e e2) :
    WF e2 ∧
    (∀ tid, statusEdgeOk (statusOf e tid) (statusOf e2 tid) = true) ∧
    (∀ tid j w, jobFind e tid = some j → j.state = .finished w →
      jobFind e2 tid = none ∨
        ∃ j2, jobFind e2 tid = some j2 ∧ j2.state = .finished w) := by
  obtain ⟨hb, hndT, hjb, hndJ, hok⟩ := hwf
  cases hs with
  | create t inp tid e3 hcr =>
      rcases hsp : validInput t inp with _ | sp
      · rw [create_task, hsp] at hcr
        exact absurd hcr (by simp)
      rw [create_task, hsp] at hcr
      simp only [Except.ok.injEq, Prod.mk.injEq] at hcr
      obtain ⟨rfl, rfl⟩ := hcr
      have hTnone : taskLookup e.db e.db.nextId = none := by
        rw [taskLookup, List.find?_eq_none]
        intro tr htr
        simp only [decide_eq_true_eq]
        exact fun h => absurd (h ▸ hb tr htr) (lt_irrefl _)
      have hJnone : jobFind e e.db.nextId = none := by
        rw [jobFind, List.find?_eq_none]
        intro j hj
        simp only [decide_eq_true_eq]
        exact fun h => absurd (h ▸ hjb j hj) (lt_irrefl _)
      have htasks2 : ∀ sp2 db1, (addInputRec db1 e.db.nextId sp2).tasks = db1.tasks :=
        fun sp2 db1 => addInputRec_tasks db1 e.db.nextId sp2
      have hlookNew : taskLookup (addInputRec
          { e.db with
            tasks := e.db.tasks ++ [⟨e.db.nextId, t, .pending⟩],
            nextId := e.db.nextId + 1 } e.db.nextId sp) e.db.nextId =
          some ⟨e.db.nextId, t, .pending⟩ := by
        rw [taskLookup, addInputRec_tasks]
        show (e.db.tasks ++ [(⟨e.db.nextId, t, .pending⟩ : TaskRec)]).find? _ = _
        rw [find?_append_none _ _ _ hTnone]
        simp [List.find?]
      have hlookOld : ∀ tid0, tid0 ≠ e.db.nextId →
          taskLookup (addInputRec
            { e.db with
              tasks := e.db.tasks ++ [⟨e.db.nextId, t, .pending⟩],
              nextId := e.db.nextId + 1 } e.db.nextId sp) tid0 =
            taskLookup e.db tid0 := by
        intro tid0 h0
        rw [taskLookup, addInputRec_tasks]
        show (e.db.tasks ++ [(⟨e.db.nextId, t, .pending⟩ : TaskRec)]).find? _ = _
        rcases hold : e.db.tasks.find? (fun tr => tr.id = tid0) with _ | x
        · rw [find?_append_none _ _ _ hold, taskLookup, hold]
          show (List.find? _ [(⟨e.db.nextId, t, .pending⟩ : TaskRec)]) = none
          rw [List.find?_cons_of_neg _ ?_, List.find?_nil]
          simp only [decide_eq_true_eq]
          exact fun h => h0 h.symm
        · rw [find?_append_some _ _ _ _ hold, taskLookup, hold]
      have hnid2 : (addInputRec
          { e.db with
            tasks := e.db.tasks ++ [⟨e.db.nextId, t, .pending⟩],
            nextId := e.db.nextId + 1 } e.db.nextId sp).nextId =
          e.db.nextId + 1 := by
        rw [addInputRec_nextId]
      refine ⟨⟨?_, ?_, ?_, ?_, ?_⟩, ?_, ?_⟩
      · intro tr htr
        rw [addInputRec_tasks] at htr
        rw [hnid2]
        rcases List.mem_append.mp htr with hmem | hmem
        · exact lt_trans (hb tr hmem) (Nat.lt_succ_self _)
        · simp only [List.mem_singleton] at hmem
          rw [hmem]
          exact Nat.lt_succ_self _
      · rw [addInputRec_tasks]
        show ((e.db.tasks ++ [(⟨e.db.nextId, t, .pending⟩ : TaskRec)]).map TaskRec.id).Nodup
        rw [List.map_append, List.nodup_append]
        refine ⟨hndT, by simp, ?_⟩
        intro a ha hamem
        simp only [List.map_cons, List.map_nil, List.mem_singleton] at hamem
        obtain ⟨tr, htr, rfl⟩ := List.mem_map.mp ha
        exact absurd (hamem ▸ hb tr htr) (lt_irrefl _)
      · intro j hj
        rw [hnid2]
        rcases List.mem_append.mp hj with hmem | hmem
        · exact lt_trans (hjb j hmem) (Nat.lt_succ_self _)
        · simp only [List.mem_singleton] at hmem
          rw [hmem]
          exact Nat.lt_succ_self _
      · rw [List.map_append, List.nodup_append]
        refine ⟨hndJ, by simp, ?_⟩
        intro a ha hamem
        simp only [List.map_cons, List.map_nil, List.mem_singleton] at hamem
        obtain ⟨j, hj, rfl⟩ := List.mem_map.mp ha
        exact absurd (hamem ▸ hjb j hj) (lt_irrefl _)
      · intro j2 hmem
        rcases List.mem_append.mp hmem with hmem | hmem
        · refine jobStateOk_of_lookup_eq e.db _ j2 ?_ (hok j2 hmem)
          exact hlookOld j2.taskId (fun h => absurd (h ▸ hjb j2 hmem) (lt_irrefl _))
        · simp only [List.mem_singleton] at hmem
          rw [hmem]
          exact ⟨⟨e.db.nextId, t, .pending⟩, hlookNew, rfl⟩
      · intro tid0
        simp only [statusOf]
        by_cases h0 : tid0 = e.db.nextId
        · rw [h0, hTnone, hlookNew]
          rfl
        · rw [hlookOld tid0 h0]
          exact statusEdgeOk_refl _
      · intro tid0 j0 w0 hj0 hfin
        right
        refine ⟨j0, ?_, hfin⟩
        show (e.jobs ++ [(⟨e.db.nextId, sp, .scheduled⟩ : Job)]).find? _ = some j0
        exact find?_append_some _ _ _ _ hj0
  | start tid j hj hst =>
      obtain ⟨htid, hjmem⟩ := jobFind_taskId e tid j hj
      obtain ⟨jt, jsp, jst⟩ := j
      cases hst
      have htid2 : jt = tid := htid
      subst htid2
      obtain ⟨tr, hl, hp⟩ := hok _ hjmem
      refine ⟨⟨hb, hndT, ?_, ?_, ?_⟩, ?_, ?_⟩
      · intro j2 hmem
        obtain ⟨j0, hj0, rfl⟩ := List.mem_map.mp hmem
        by_cases hc : j0.taskId = jt
        · simp only [hc, if_true]
          exact hc ▸ hjb j0 hj0
        · simp only [hc, if_false]
          exact hjb j0 hj0
      · show ((setJobState e.jobs jt _).map Job.taskId).Nodup
        rw [setJobState_map_taskId]
        exact hndJ
      · intro j2 hmem
        obtain ⟨j0, hj0, rfl⟩ := List.mem_map.mp hmem
        by_cases hc : j0.taskId = jt
        · have hj0eq : j0 = ⟨jt, jsp, .scheduled⟩ :=
            List.inj_on_of_nodup_map hndJ hj0 hjmem (by rw [hc])
          simp only [hc, if_true]
          rw [hj0eq]
          exact ⟨tr, hl, by rw [hp]; exact bodyActions_writes env e.db jsp⟩
        · simp only [hc, if_false]
          exact hok j0 hj0
      · intro tid0
        exact statusEdgeOk_refl _
      · intro tid0 j0 w0 hj0 hfin
        by_cases h0 : tid0 = jt
        · subst h0
          rw [hj] at hj0
          cases hj0
          cases hfin
        · right
          refine ⟨j0, ?_, hfin⟩
          show (setJobState e.jobs jt _).find? _ = some j0
          rw [jobFind_setJobState_other e jt tid0 _ h0]
          exact hj0
  | act tid j a rest w hj hst =>
      obtain ⟨htid, hjmem⟩ := jobFind_taskId e tid j hj
      obtain ⟨jt, jsp, jst⟩ := j
      cases hst
      have htid2 : jt = tid := htid
      subst htid2
      obtain ⟨tr, hl, hseq⟩ := hok _ hjmem
      have hnodupPres : ∀ s : TaskStatus,
          (((applyAction e.db jt (.setStatus s)).tasks).map TaskRec.id).Nodup := by
        intro s
        show ((e.db.tasks.map fun t =>
          if t.id = jt then { t with status := s } else t).map TaskRec.id).Nodup
        rw [setStatus_map_id]
        exact hndT
      have hjobsOkPres : ∀ db2 : DB,
          (∀ tid0, tid0 ≠ jt → taskLookup db2 tid0 = taskLookup e.db tid0) →
          (∃ tr2, taskLookup db2 jt = some tr2 ∧
            seqOkB tr2.status (writesOf rest) = true) →
          ∀ j2 ∈ setJobState e.jobs jt (.active rest w), jobStateOk db2 j2 := by
        intro db2 hother hself j2 hmem
        obtain ⟨j0, hj0, rfl⟩ := List.mem_map.mp hmem
        by_cases hc : j0.taskId = jt
        · have hj0eq : j0 = ⟨jt, jsp, .active (a :: rest) w⟩ :=
            List.inj_on_of_nodup_map hndJ hj0 hjmem (by rw [hc])
          simp only [hc, if_true]
          rw [hj0eq]
          exact hself
        · simp only [hc, if_false]
          exact jobStateOk_of_lookup_eq e.db db2 j0 (hother j0.taskId hc) (hok j0 hj0)
      have hfinPres : ∀ tid0 j0 w0, jobFind e tid0 = some j0 →
          j0.state = .finished w0 →
          ((setJobState e.jobs jt (.active rest w)).find? fun j2 =>
            j2.taskId = tid0) = some j0 := by
        intro tid0 j0 w0 hj0 hfin
        by_cases h0 : tid0 = jt
        · subst h0
          rw [hj] at hj0
          cases hj0
          cases hfin
        · rw [jobFind_setJobState_other e jt tid0 _ h0]
          exact hj0
      cases a with
      | setStatus s =>
          simp only [writesOf, List.filterMap_cons, seqOkB, Bool.and_eq_true] at hseq
          obtain ⟨hedge, hrest⟩ := hseq
          refine ⟨⟨?_, hnodupPres s, ?_, ?_, ?_⟩, ?_, ?_⟩
          · intro tr2 htr2
            obtain ⟨t0, ht0, rfl⟩ := List.mem_map.mp htr2
            by_cases hc : t0.id = jt
            · simp only [hc, if_true]
              exact hc ▸ hb t0 ht0
            · simp only [hc, if_false]
              exact hb t0 ht0
          · intro j2 hmem
            obtain ⟨j0, hj0, rfl⟩ := List.mem_map.mp hmem
            by_cases hc : j0.taskId = jt
            · simp only [hc, if_true]
              exact hc ▸ hjb j0 hj0
            · simp only [hc, if_false]
              exact hjb j0 hj0
          · show ((setJobState e.jobs jt _).map Job.taskId).Nodup
            rw [setJobState_map_taskId]
            exact hndJ
          · refine hjobsOkPres _ ?_ ?_
            · intro tid0 h0
              exact taskLookup_applyAction_other e.db jt tid0 _ h0
            · refine ⟨{ tr with status := s }, ?_, hrest⟩
              rw [taskLookup_setStatus_self, hl]
              rfl
          · intro tid0
            by_cases h0 : tid0 = jt
            · subst h0
              show statusEdgeOk ((taskLookup e.db tid0).map TaskRec.status)
                ((taskLookup (applyAction e.db tid0 (.setStatus s)) tid0).map
                  TaskRec.status) = true
              rw [hl, taskLookup_setStatus_self, hl]
              show statusEdgeOk (some tr.status) (some s) = true
              simp [statusEdgeOk, hedge]
            · show statusEdgeOk ((taskLookup e.db tid0).map TaskRec.status)
                ((taskLookup (applyAction e.db jt (.setStatus s)) tid0).map
                  TaskRec.status) = true
              rw [taskLookup_applyAction_other e.db jt tid0 _ h0]
              exact statusEdgeOk_refl _
          · intro tid0 j0 w0 hj0 hfin
            exact Or.inr ⟨j0, hfinPres tid0 j0 w0 hj0 hfin, hfin⟩
      | addTime =>
          refine ⟨⟨hb, hndT, ?_, ?_, ?_⟩, ?_, ?_⟩
          · intro j2 hmem
            obtain ⟨j0, hj0, rfl⟩ := List.mem_map.mp hmem
            by_cases hc : j0.taskId = jt
            · simp only [hc, if_true]
              exact hc ▸ hjb j0 hj0
            · simp only [hc, if_false]
              exact hjb j0 hj0
          · show ((setJobState e.jobs jt _).map Job.taskId).Nodup
            rw [setJobState_map_taskId]
            exact hndJ
          · refine hjobsOkPres _ (fun _ _ => rfl) ⟨tr, hl, hseq⟩
          · intro tid0
            exact statusEdgeOk_refl _
          · intro tid0 j0 w0 hj0 hfin
            exact Or.inr ⟨j0, hfinPres tid0 j0 w0 hj0 hfin, hfin⟩
      | addCsv ty c =>
          refine ⟨⟨?_, hndT, ?_, ?_, ?_⟩, ?_, ?_⟩
          · intro tr2 htr2
            exact lt_trans (hb tr2 htr2) (Nat.lt_succ_self _)
          · intro j2 hmem
            obtain ⟨j0, hj0, rfl⟩ := List.mem_map.mp hmem
            by_cases hc : j0.taskId = jt
            · simp only [hc, if_true]
              exact lt_trans (hc ▸ hjb j0 hj0) (Nat.lt_succ_self _)
            · simp only [hc, if_false]
              exact lt_trans (hjb j0 hj0) (Nat.lt_succ_self _)
          · show ((setJobState e.jobs jt _).map Job.taskId).Nodup
            rw [setJobState_map_taskId]
            exact hndJ
          · refine hjobsOkPres _ (fun _ _ => rfl) ⟨tr, hl, hseq⟩
          · intro tid0
            exact statusEdgeOk_refl _
          · intro tid0 j0 w0 hj0 hfin
            exact Or.inr ⟨j0, hfinPres tid0 j0 w0 hj0 hfin, hfin⟩
      | addPumpOut =>
          refine ⟨⟨hb, hndT, ?_, ?_, ?_⟩, ?_, ?_⟩
          · intro j2 hmem
            obtain ⟨j0, hj0, rfl⟩ := List.mem_map.mp hmem
            by_cases hc : j0.taskId = jt
            · simp only [hc, if_true]
              exact hc ▸ hjb j0 hj0
            · simp only [hc, if_false]
              exact hjb j0 hj0
          · show ((setJobState e.jobs jt _).map Job.taskId).Nodup
            rw [setJobState_map_taskId]
            exact hndJ
          · refine hjobsOkPres _ (fun _ _ => rfl) ⟨tr, hl, hseq⟩
          · intro tid0
            exact statusEdgeOk_refl _
          · intro tid0 j0 w0 hj0 hfin
            exact Or.inr ⟨j0, hfinPres tid0 j0 w0 hj0 hfin, hfin⟩
  | finishJob tid j w hj hst =>
      obtain ⟨htid, hjmem⟩ := jobFind_taskId e tid j hj
      obtain ⟨jt, jsp, jst⟩ := j
      cases hst
      have htid2 : jt = tid := htid
      subst htid2
      refine ⟨⟨hb, hndT, ?_, ?_, ?_⟩, ?_, ?_⟩
      · intro j2 hmem
        obtain ⟨j0, hj0, rfl⟩ := List.mem_map.mp hmem
        by_cases hc : j0.taskId = jt
        · simp only [hc, if_true]
          exact hc ▸ hjb j0 hj0
        · simp only [hc, if_false]
          exact hjb j0 hj0
      · show ((setJobState e.jobs jt _).map Job.taskId).Nodup
        rw [setJobState_map_taskId]
        exact hndJ
      · intro j2 hmem
        obtain ⟨j0, hj0, rfl⟩ := List.mem_map.mp hmem
        by_cases hc : j0.taskId = jt
        · simp only [hc, if_true]
          trivial
        · simp only [hc, if_false]
          exact hok j0 hj0
      · intro tid0
        exact statusEdgeOk_refl _
      · intro tid0 j0 w0 hj0 hfin
        by_cases h0 : tid0 = jt
        · subst h0
          rw [hj] at hj0
          cases hj0
          cases hfin
        · right
          refine ⟨j0, ?_, hfin⟩
          show (setJobState e.jobs jt _).find? _ = some j0
          rw [jobFind_setJobState_other e jt tid0 _ h0]
          exact hj0
  | del tid e3 hdel =>
      rw [delete_task] at hdel
      split at hdel
      · exact absurd hdel (by simp)
      · split at hdel
        · exact absurd hdel (by simp)
        · simp only [Except.ok.injEq] at hdel
          subst hdel
          refine ⟨⟨?_, ?_, ?_, ?_, ?_⟩, ?_, ?_⟩
          · intro tr htr
            exact hb tr (List.mem_of_mem_filter htr)
          · exact hndT.sublist ((List.filter_sublist _).map TaskRec.id)
          · intro j hj
            exact hjb j (List.mem_of_mem_filter hj)
          · exact hndJ.sublist ((List.filter_sublist _).map Job.taskId)
          · intro j2 hmem
            have hj2 := List.mem_filter.mp hmem
            have hne : j2.taskId ≠ tid := by
              have := hj2.2
              simp only [ne_eq, decide_not, Bool.not_eq_eq_eq_not, Bool.not_true,
                decide_eq_false_iff_not] at this
              exact this
            refine jobStateOk_of_lookup_eq e.db _ j2 ?_ (hok j2 hj2.1)
            exact find?_filter_ne_other TaskRec.id tid j2.taskId hne e.db.tasks
          · intro tid0
            by_cases h0 : tid0 = tid
            · subst h0
              show statusEdgeOk ((taskLookup e.db tid0).map TaskRec.status)
                ((List.find? _ (e.db.tasks.filter fun t => t.id ≠ tid0)).map
                  TaskRec.status) = true
              rw [find?_filter_ne_self TaskRec.id tid0 e.db.tasks]
              rcases taskLookup e.db tid0 with _ | x <;> rfl
            · show statusEdgeOk ((taskLookup e.db tid0).map TaskRec.status)
                ((List.find? _ (e.db.tasks.filter fun t => t.id ≠ tid)).map
                  TaskRec.status) = true
              rw [find?_filter_ne_other TaskRec.id tid tid0 h0 e.db.tasks]
              exact statusEdgeOk_refl _
          · intro tid0 j0 w0 hj0 hfin
            by_cases h0 : tid0 = tid
            · subst h0
              left
              show (e.jobs.filter fun j => j.taskId ≠ tid0).find? _ = none
              exact find?_filter_ne_self Job.taskId tid0 e.jobs
            · right
              refine ⟨j0, ?_, hfin⟩
              show (e.jobs.filter fun j => j.taskId ≠ tid).find? _ = some j0
              rw [find?_filter_ne_other Job.taskId tid tid0 h0 e.jobs]
              exact hj0

/-- Witness for `status_transition_invariant`: the creation step of a pump
task on the empty engine makes one legal `none → Pending` change. -/
theorem status_transition_invariant_witness :
    ∃ e2, Step envFail emptyEngine e2 ∧
      ∀ tid, statusEdgeOk (statusOf emptyEngine tid) (statusOf e2 tid) = true := by
  obtain ⟨he2, hok2⟩ : ∃ e2,
      create_task emptyEngine .pumpTransfer (.pumpI ⟨1, 2⟩) = .ok (0, e2) :=
    ⟨_, rfl⟩
  refine ⟨_, Step.create emptyEngine .pumpTransfer (.pumpI ⟨1, 2⟩) 0 _ hok2, ?_⟩
  exact (status_transition_invariant envFail emptyEngine _ WF.emptyEngine
    (Step.create emptyEngine .pumpTransfer (.pumpI ⟨1, 2⟩) 0 _ hok2)).2.1

/-! ## The workflow executor
(`src/core/workflow_executor.py`, `src/operations/unit_operations.py`)

Parameter values are JSON; the engine client (`create_task` +
`wait_for_task_completion`) is an oracle returning the completed-task JSON for
a submitted operation, and every submission is logged so that "no task was
submitted" is an inspectable fact. Python's `value.startswith("$")`,
`value[1:]` and `.split(".")` are modelled character-wise. -/

inductive Json
  | null
  | str (s : String)
  | num (q : ℚ)
  | bool (b : Bool)
  | arr (items : List Json)
  | obj (fields : List (String × Json))

structure WOp where
  id : String
  type : String
  params : List (String × Json)

/-- The three `ValueError` sites of the executor: a missing `type` field, a
resolution failure (`DependencyError`), and an unknown operation type
(`OperationError`). -/
inductive WErr
  | noType (msg : String)
  | depErr (msg : String)
  | opErr (msg : String)
deriving DecidableEq, Repr

/-- `value.startswith("$")`. -/
def startsWithDollar (s : String) : Bool :=
  match s.data with
  | [] => false
  | c :: _ => c = '$'

/-- `value[1:]`. -/
def strTail (s : String) : String := ⟨s.data.drop 1⟩

def splitDotAux : List Char → List Char → List String
  | [], acc => [⟨acc.reverse⟩]
  | c :: rest, acc =>
      if c = '.' then ⟨acc.reverse⟩ :: splitDotAux rest []
      else splitDotAux rest (c :: acc)

/-- Python `str.split(".")` (never empty; `"".split(".") == [""]`). -/
def splitDot (s : String) : List String := splitDotAux s.data []

/-- Walking the dotted path through the recorded result: `part in ref_result`
then `ref_result[part]` — a missing key (and likewise a non-dict intermediate,
where the Python `in`/indexing also fails) raises the DependencyError. -/
def navigate : List String → Json → Except WErr Json
  | [], ref => .ok ref
  | p :: rest, ref =>
      match ref with
      | .obj fields =>
          match fields.find? fun f => f.1 = p with
          | some f => navigate rest f.2
          | none =>
              .error (.depErr "Referenced path not found in operation result")
      | _ => .error (.depErr "Referenced path not found in operation result")

/-- Resolution of one parameter value: a string starting with the `$` sigil is
`<operationId>.<dotted.path>` into an already-recorded result; anything else
passes through unchanged. -/
def resolveValue (results : List (String × Json)) (v : Json) :
    Except WErr Json :=
  match v with
  | .str s =>
      if startsWithDollar s then
        let parts := splitDot (strTail s)
        match results.find? fun r => r.1 = parts.headD "" with
        | none =>
            .error (.depErr ("Referenced operation " ++ parts.headD "" ++
              " not found or not executed yet"))
        | some r => navigate parts.tail r.2
      else .ok v
  | v => .ok v

/-- `resolve_dependencies` over the parameter mapping, in order, first error
propagating. -/
def resolveParams (results : List (String × Json)) :
    List (String × Json) → Except WErr (List (String × Json))
  | [] => .ok []
  | (k, v) :: rest => do
      let v2 ← resolveValue results v
      let rest2 ← resolveParams results rest
      .ok ((k, v2) :: rest2)

/-- The engine-client oracle: submitting a task of the given endpoint type
with the given (resolved) parameters and polling it to completion yields this
JSON result. -/
def WClient : Type := String → List (String × Json) → Json

def validOpTypes : List String :=
  ["uo_sdl2_cv", "uo_sdl2_rolling_mean", "uo_sdl2_peak_detection"]

/-- Executor state: `operation_results` (newest binding first, so duplicate
ids shadow as in a dict) and the log of `create_task` submissions. -/
structure WState where
  operationResults : List (String × Json)
  submitted : List (String × List (String × Json))

/-- `execute_operation` on an already-resolved operation: reject a missing
type, then `create_unit_operation`'s `if/elif` chain — an unsupported type
raises before any task is submitted — and otherwise submit exactly one task,
record its completed result under the operation id, and return it. -/
def executeOperation (client : WClient) (st : WState) (op : WOp) :
    Except WErr (Json × WState) :=
  if op.type = "" then
    .error (.noType ("Operation type not specified for operation " ++ op.id))
  else if op.type = "uo_sdl2_cv" ∨ op.type = "uo_sdl2_rolling_mean" ∨
      op.type = "uo_sdl2_peak_detection" then
    .ok (client op.type op.params,
      ⟨(op.id, client op.type op.params) :: st.operationResults,
        st.submitted ++ [(op.type, op.params)]⟩)
  else .error (.opErr ("Unsupported operation type: " ++ op.type))

/-- One loop iteration of `execute_workflow`: resolve, then execute. -/
def processOp (client : WClient) (st : WState) (op : WOp) :
    Except WErr (Json × WState) :=
  match resolveParams st.operationResults op.params with
  | .error err => .error err
  | .ok params2 => executeOperation client st { op with params := params2 }

/-- The `execute_workflow` loop: operations strictly in list order, the final
operation's result is the workflow result, and any error aborts the remaining
operations immediately — the state (including the submission log) stays as it
was when the error was raised. (An empty operations list returns the
executor's initial `{}` result; modelled as `.null`.) -/
def runOps (client : WClient) : List WOp → WState → Except WErr Json × WState
  | [], st => (.ok .null, st)
  | [op], st =>
      match processOp client st op with
      | .ok (res, st2) => (.ok res, st2)
      | .error err => (.error err, st)
  | op :: rest, st =>
      match processOp client st op with
      | .ok (_, st2) => runOps client rest st2
      | .error err => (.error err, st)

/-- A whole run: `operation_results` is reset first, so references can only
name operations of the same run. -/
def runWorkflow (client : WClient) (ops : List WOp) :
    Except WErr Json × WState :=
  runOps client ops ⟨[], []⟩

theorem processOp_ok_state (client : WClient) (st : WState) (op : WOp)
    (res : Json) (st2 : WState) (h : processOp client st op = .ok (res, st2)) :
    st2.operationResults = (op.id, res) :: st.operationResults := by
  rw [processOp] at h
  rcases hr : resolveParams st.operationResults op.params with err | ps
  · rw [hr] at h
    exact Except.noConfusion h
  · rw [hr] at h
    have h : executeOperation client st { op with params := ps } =
        .ok (res, st2) := h
    rw [executeOperation] at h
    split at h
    · exact absurd h (by simp)
    · split at h
      · simp only [Except.ok.injEq, Prod.mk.injEq] at h
        rw [← h.2, h.1]
      · exact Except.noConfusion h

theorem processOp_resolve_error (client : WClient) (st : WState) (op : WOp)
    (err : WErr) (h : resolveParams st.operationResults op.params = .error err) :
    processOp client st op = .error err := by
  rw [processOp, h]

/-- `C9`: in every workflow run, operations execute strictly in list order and
(i) non-reference parameter values pass through resolution unchanged;
(ii) a `$`-reference whose operation id is not among the recorded results —
which, by (iv), are exactly the ids of the strictly earlier operations of the
run, so forward, self and unknown references alike — fails with a
DependencyError; (iii) a recorded result that does not contain the dotted
path fails with a DependencyError; (iv) after a successful run the recorded
result ids are exactly the executed operations' ids; (v) a resolution error
and (vi) an unrecognized operation type abort the run at that operation with
the state — including the submission log — unchanged, so no task of that or
any later operation is submitted. -/
theorem workflow_resolution_semantics (client : WClient) :
    (∀ rs s, startsWithDollar s = false →
      resolveValue rs (.str s) = .ok (.str s)) ∧
    (∀ rs, resolveValue rs .null = .ok .null) ∧
    (∀ rs q, resolveValue rs (.num q) = .ok (.num q)) ∧
    (∀ rs b, resolveValue rs (.bool b) = .ok (.bool b)) ∧
    (∀ rs items, resolveValue rs (.arr items) = .ok (.arr items)) ∧
    (∀ rs fields, resolveValue rs (.obj fields) = .ok (.obj fields)) ∧
    (∀ rs s, startsWithDollar s = true →
      (rs.find? fun r => r.1 = (splitDot (strTail s)).headD "") = none →
      resolveValue rs (.str s) = .error (.depErr ("Referenced operation " ++
        (splitDot (strTail s)).headD "" ++ " not found or not executed yet"))) ∧
    (∀ fields p rest, (fields.find? fun f => f.1 = p) = none →
      navigate (p :: rest) (.obj fields) =
        .error (.depErr "Referenced path not found in operation result")) ∧
    (∀ ops st res st2, runOps client ops st = (.ok res, st2) →
      st2.operationResults.map Prod.fst =
        (ops.map WOp.id).reverse ++ st.operationResults.map Prod.fst) ∧
    (∀ st op rest err,
      resolveParams st.operationResults op.params = .error err →
      runOps client (op :: rest) st = (.error err, st)) ∧
    (∀ st op rest params2,
      resolveParams st.operationResults op.params = .ok params2 →
      op.type ≠ "" → op.type ∉ validOpTypes →
      runOps client (op :: rest) st =
        (.error (.opErr ("Unsupported operation type: " ++ op.type)), st)) := by
  refine ⟨?_, fun _ => rfl, fun _ _ => rfl, fun _ _ => rfl, fun _ _ => rfl,
    fun _ _ => rfl, ?_, ?_, ?_, ?_, ?_⟩
  · intro rs s h
    simp [resolveValue, h]
  · intro rs s h hfind
    rw [List.headD_eq_head?] at hfind
    simp [resolveValue, h, hfind]
  · intro fields p rest h
    simp [navigate, h]
  · intro ops
    induction ops with
    | nil =>
        intro st res st2 h
        simp only [runOps, Prod.mk.injEq] at h
        rw [← h.2]
        simp
    | cons op rest ih =>
        intro st res st2 h
        cases rest with
        | nil =>
            simp only [runOps] at h
            rcases hp : processOp client st op with err | p
            · rw [hp] at h
              simp at h
            · rw [hp] at h
              simp only [Prod.mk.injEq, Except.ok.injEq] at h
              obtain ⟨rfl⟩ := h.2
              rw [processOp_ok_state client st op p.1 p.2 (by rw [hp])]
              simp
        | cons op2 rest2 =>
            simp only [runOps] at h
            rcases hp : processOp client st op with err | p
            · rw [hp] at h
              simp at h
            · rw [hp] at h
              have hkeys := ih p.2 res st2 h
              rw [processOp_ok_state client st op p.1 p.2 (by rw [hp])] at hkeys
              rw [hkeys]
              simp
  · intro st op rest err hr
    have hp := processOp_resolve_error client st op err hr
    cases rest with
    | nil => simp only [runOps, hp]
    | cons op2 rest2 => simp only [runOps, hp]
  · intro st op rest params2 hr hne hnot
    have htype : ¬(op.type = "uo_sdl2_cv" ∨ op.type = "uo_sdl2_rolling_mean" ∨
        op.type = "uo_sdl2_peak_detection") := by
      simp only [validOpTypes, List.mem_cons, List.not_mem_nil, or_false] at hnot
      exact hnot
    have hp : processOp client st op =
        .error (.opErr ("Unsupported operation type: " ++ op.type)) := by
      rw [processOp, hr]
      show executeOperation client st { op with params := params2 } = _
      rw [executeOperation, if_neg hne, if_neg htype]
    cases rest with
    | nil => simp only [runOps, hp]
    | cons op2 rest2 => simp only [runOps, hp]

/-- Witness for `workflow_resolution_semantics`: an unknown reference fails
with a DependencyError, and an unsupported operation type aborts with nothing
submitted. -/
theorem workflow_resolution_semantics_witness :
    startsWithDollar "$a.output.id" = true ∧
    resolveValue [] (.str "$a.output.id") =
      .error (.depErr "Referenced operation a not found or not executed yet") ∧
    runOps (fun _ _ => Json.null) [⟨"x", "bad", []⟩] ⟨[], []⟩ =
      (.error (.opErr "Unsupported operation type: bad"), ⟨[], []⟩) := by
  refine ⟨by decide, ?_, ?_⟩
  · exact (workflow_resolution_semantics (fun _ _ => Json.null)).2.2.2.2.2.2.1
      [] "$a.output.id" (by decide) rfl
  · exact (workflow_resolution_semantics
      (fun _ _ => Json.null)).2.2.2.2.2.2.2.2.2.2
      ⟨[], []⟩ ⟨"x", "bad", []⟩ [] [] rfl (by decide) (by decide)

end SDL2
